import Mathlib

/-!
# USIG certificate and identity codec (Go package `sgx`, file `usig/sgx/sgx-usig.go`)

A shallow embedding of the Go wrapper around the SGX USIG enclave:
`MakeCert`/`ParseCert`, `MakeID`/`ParseID`, `CreateUI`/`VerifyUI`,
`SharesSecretHashToBytes` and `messageDigest`.

Conventions of the embedding.

* A Go `[]byte` is `Bytes = Option (List Byte)`; `none` is the nil slice.
* A Go function returns its tuple of results, the `error` last; one that can
  panic yields an `Outcome`.
* `int` is 64 bits wide (the enclave runs on amd64); `uint64` values are
  natural numbers below `2 ^ 64`.
* The library routines the wrapper calls (`strconv`, `encoding/asn1`,
  `encoding/binary`, `crypto/sha256`) are embedded from the Go standard
  library.  A position `offset` in a slice `bytes` of the Go parser is the
  suffix `bytes[offset:]` here.
* Bit tests on a byte are written arithmetically: `b & 0x80 == 0` is
  `b < 128`, `b & 0x7f` is `b % 128`, `b >> 6` is `b / 64`, `x << 8 | b` is
  `x * 256 + b`, and an arithmetic right shift is a floor division.
-/

/-- A byte (`uint8`). -/
abbrev Byte := Fin 256

/-- The Go conversion `byte(x)` of a non-negative integer: the low 8 bits. -/
def byte (x : Nat) : Byte := ⟨x % 256, Nat.mod_lt x (by decide)⟩

/-- The Go conversion `byte(x)` of a signed integer: the low 8 bits of its
two's complement form. -/
def byteOfInt (x : Int) : Byte := ⟨(x % 256).toNat, by omega⟩

/-- A Go byte slice; `none` is nil. -/
abbrev Bytes := Option (List Byte)

/-- The `len` of a Go slice: the content of a nil slice is empty. -/
def Bytes.content (b : Bytes) : List Byte := b.getD []

/-- A Go `error` value: `none` is nil, `some msg` an error with text `msg`. -/
abbrev GoError := Option String

/-- Result of a Go call: it returns its tuple of results, or it panics. -/
inductive Outcome (α : Type) where
  | ret (val : α)
  | panic (msg : String)
deriving DecidableEq

namespace strconv

/-- The two sentinel errors of package `strconv`. -/
inductive NumError where
  | ErrSyntax
  | ErrRange
deriving DecidableEq

/-- Decimal digits of `u`, most significant first, in front of `acc`
(`formatBits` for base 10; 20 digits hold every `uint64`). -/
def formatBits : Nat → Nat → List Byte → List Byte
  | 0, _, acc => acc
  | fuel + 1, u, acc =>
    if u < 10 then byte (48 + u) :: acc
    else formatBits fuel (u / 10) (byte (48 + u % 10) :: acc)

/-- The Go call `strconv.FormatUint(i, 10)`, as ASCII bytes. -/
def FormatUint (i : Nat) : List Byte := formatBits 20 i []

/-- Largest `uint64`. -/
def maxUint64 : Nat := 2 ^ 64 - 1

/-- Loop of `ParseUint(s, 10, 64)`: returns `(n, err)`. -/
def ParseUintLoop (n : Nat) : List Byte → Nat × Option NumError
  | [] => (n, none)
  | c :: rest =>
    if 48 ≤ c.val ∧ c.val ≤ 57 then
      let d := c.val - 48
      if n ≥ maxUint64 / 10 + 1 then (maxUint64, some .ErrRange)
      else
        let n1 := n * 10 + d
        if n1 > maxUint64 then (maxUint64, some .ErrRange)
        else ParseUintLoop n1 rest
    else (0, some .ErrSyntax)

/-- The Go call `strconv.ParseUint(s, 10, 0)`. -/
def ParseUint (s : List Byte) : Nat × Option NumError :=
  if s = [] then (0, some .ErrSyntax) else ParseUintLoop 0 s

/-- The Go call `strconv.ParseInt(s, 10, 0)` with a 64-bit `int`. -/
def ParseInt (s : List Byte) : Int × Option NumError :=
  match s with
  | [] => (0, some .ErrSyntax)
  | c :: rest =>
    let neg := c.val = 45
    let s1 := if c.val = 43 ∨ c.val = 45 then rest else s
    match ParseUint s1 with
    | (_, some .ErrSyntax) => (0, some .ErrSyntax)
    | (un, _) =>
      let cutoff : Nat := 2 ^ 63
      if ¬ neg ∧ un ≥ cutoff then ((cutoff : Int) - 1, some .ErrRange)
      else if neg ∧ un > cutoff then (-(cutoff : Int), some .ErrRange)
      else if neg then (-(un : Int), none) else ((un : Int), none)

/-- Fast-path loop of `Atoi`: `none` on a byte that is not a digit. -/
def atoiLoop (n : Nat) : List Byte → Option Nat
  | [] => some n
  | ch :: rest =>
    if 48 ≤ ch.val ∧ ch.val ≤ 57 then atoiLoop (n * 10 + (ch.val - 48)) rest
    else none

/-- The Go call `strconv.Atoi(s)` with a 64-bit `int`: `(value, err)`. -/
def Atoi (s : List Byte) : Int × Option NumError :=
  if 0 < s.length ∧ s.length < 19 then
    match s with
    | [] => (0, some .ErrSyntax)
    | c :: rest =>
      let signed := c.val = 45 ∨ c.val = 43
      let s1 := if signed then rest else s
      if signed ∧ s1.length < 1 then (0, some .ErrSyntax)
      else
        match atoiLoop 0 s1 with
        | none => (0, some .ErrSyntax)
        | some n => if c.val = 45 then (-(n : Int), none) else ((n : Int), none)
  else ParseInt s

end strconv

namespace asn1

/-- Universal tag numbers used by the wrapper. -/
def TagInteger : Nat := 2

/-- Universal tag of an OCTET STRING. -/
def TagOctetString : Nat := 4

/-- Universal tag of a SEQUENCE. -/
def TagSequence : Nat := 16

/-- The universal class. -/
def ClassUniversal : Nat := 0

/-- Header of a DER element (`class` is named `cls`). -/
structure tagAndLength where
  cls : Nat
  tag : Nat
  length : Nat
  isCompound : Bool
deriving DecidableEq

/-- Text of a `SyntaxError`. -/
def SyntaxError (msg : String) : String := "asn1: syntax error: " ++ msg

/-- Text of a `StructuralError`. -/
def StructuralError (msg : String) : String := "asn1: structure error: " ++ msg

/-! ### Marshalling -/

/-- Loop of `lengthLength`: one more byte while `i > 255` (`i >>= 8`). -/
def lengthLengthLoop : Nat → Nat → Nat
  | 0, _ => 1
  | fuel + 1, i => if i > 255 then lengthLengthLoop fuel (i / 256) + 1 else 1

/-- Number of bytes of the big-endian form of a length (at most 8 for an `int`). -/
def lengthLength (i : Nat) : Nat := lengthLengthLoop 8 i

/-- The `n` low bytes of `i`, big-endian (`appendLength`). -/
def appendLength : Nat → Nat → List Byte
  | 0, _ => []
  | n + 1, i => byte (i / 2 ^ (n * 8)) :: appendLength n i

/-- Loop of `base128IntLength`. -/
def base128IntLengthLoop : Nat → Nat → Nat
  | 0, _ => 0
  | fuel + 1, i => if i > 0 then base128IntLengthLoop fuel (i / 128) + 1 else 0

/-- Number of base-128 digits of a tag number. -/
def base128IntLength (n : Nat) : Nat := if n = 0 then 1 else base128IntLengthLoop 10 n

/-- Base-128 digits `l - 1 .. 0` of `n`, all but the last with the top bit set. -/
def appendBase128IntLoop : Nat → Nat → List Byte
  | 0, _ => []
  | i + 1, n =>
    byte ((n / 2 ^ (i * 7)) % 128 + (if i ≠ 0 then 128 else 0)) :: appendBase128IntLoop i n

/-- The Go function `appendBase128Int`. -/
def appendBase128Int (n : Nat) : List Byte := appendBase128IntLoop (base128IntLength n) n

/-- The Go function `appendTagAndLength`: identifier octets, then length octets. -/
def appendTagAndLength (t : tagAndLength) : List Byte :=
  let b := t.cls * 64 + (if t.isCompound then 32 else 0)
  let tagBytes :=
    if t.tag ≥ 31 then byte (b + 31) :: appendBase128Int t.tag else [byte (b + t.tag)]
  let lenBytes :=
    if t.length ≥ 128 then
      byte (128 + lengthLength t.length) :: appendLength (lengthLength t.length) t.length
    else [byte t.length]
  tagBytes ++ lenBytes

/-- First loop of `int64Encoder.Len`: `for i > 127 { n++; i >>= 8 }`. -/
def lenLoopPos : Nat → Int → Nat → Int × Nat
  | 0, i, n => (i, n)
  | fuel + 1, i, n => if i > 127 then lenLoopPos fuel (i / 256) (n + 1) else (i, n)

/-- Second loop of `int64Encoder.Len`: `for i < -128 { n++; i >>= 8 }`. -/
def lenLoopNeg : Nat → Int → Nat → Int × Nat
  | 0, i, n => (i, n)
  | fuel + 1, i, n => if i < -128 then lenLoopNeg fuel (i / 256) (n + 1) else (i, n)

/-- The Go method `int64Encoder.Len`. -/
def int64Len (i : Int) : Nat :=
  let r := lenLoopPos 8 i 1
  (lenLoopNeg 8 r.1 r.2).2

/-- The Go method `int64Encoder.Encode`: bytes `n - 1 .. 0` of `i`. -/
def int64Encode : Nat → Int → List Byte
  | 0, _ => []
  | n + 1, i => byteOfInt (i / 2 ^ (n * 8)) :: int64Encode n i

/-- An `int` field: INTEGER header and minimal two's complement content. -/
def marshalInt (i : Int) : List Byte :=
  appendTagAndLength ⟨ClassUniversal, TagInteger, int64Len i, false⟩
    ++ int64Encode (int64Len i) i

/-- A `[]byte` field: OCTET STRING header and content (nil encodes as empty). -/
def marshalBytes (b : Bytes) : List Byte :=
  appendTagAndLength ⟨ClassUniversal, TagOctetString, b.content.length, false⟩ ++ b.content

/-- A struct: SEQUENCE header around the concatenated fields. -/
def marshalSequence (body : List Byte) : List Byte :=
  appendTagAndLength ⟨ClassUniversal, TagSequence, body.length, true⟩ ++ body

/-! ### Unmarshalling -/

/-- Loop of `parseBase128Int`; `shifted` counts the bytes read so far. -/
def parseBase128IntLoop (shifted : Nat) (ret64 : Nat) :
    List Byte → Except String (Nat × List Byte)
  | [] => .error (SyntaxError "truncated base 128 integer")
  | b :: rest =>
    if shifted = 5 then .error (StructuralError "base 128 integer too large")
    else if shifted = 0 ∧ b.val = 128 then
      .error (SyntaxError "integer is not minimally encoded")
    else
      let r := ret64 * 128 + b.val % 128
      if b.val < 128 then
        if r > 2 ^ 31 - 1 then .error (StructuralError "base 128 integer too large")
        else .ok (r, rest)
      else parseBase128IntLoop (shifted + 1) r rest

/-- The Go function `parseBase128Int`. -/
def parseBase128Int (bytes : List Byte) : Except String (Nat × List Byte) :=
  parseBase128IntLoop 0 0 bytes

/-- Long-form length loop of `parseTagAndLength`: `numBytes` bytes, big-endian. -/
def parseLengthLoop : Nat → Nat → List Byte → Except String (Nat × List Byte)
  | 0, length, bytes => .ok (length, bytes)
  | _ + 1, _, [] => .error (SyntaxError "truncated tag or length")
  | n + 1, length, b :: rest =>
    if length ≥ 2 ^ 23 then .error (StructuralError "length too large")
    else
      let length1 := length * 256 + b.val
      if length1 = 0 then .error (StructuralError "superfluous leading zeros in length")
      else parseLengthLoop n length1 rest

/-- Length octets of `parseTagAndLength`. -/
def parseLength : List Byte → Except String (Nat × List Byte)
  | [] => .error (SyntaxError "truncated tag or length")
  | b :: rest =>
    if b.val < 128 then .ok (b.val % 128, rest)
    else
      let numBytes := b.val % 128
      if numBytes = 0 then .error (SyntaxError "indefinite length found (not DER)")
      else
        match parseLengthLoop numBytes 0 rest with
        | .error e => .error e
        | .ok (length, rest1) =>
          if length < 128 then .error (StructuralError "non-minimal length")
          else .ok (length, rest1)

/-- The Go function `parseTagAndLength`: the header and the bytes after it. -/
def parseTagAndLength : List Byte → Except String (tagAndLength × List Byte)
  | [] => .error "asn1: internal error in parseTagAndLength"
  | b :: rest =>
    let cls := b.val / 64
    let isCompound := decide ((b.val / 32) % 2 = 1)
    let tag := b.val % 32
    let tagged : Except String (Nat × List Byte) :=
      if tag = 31 then
        match parseBase128Int rest with
        | .error e => .error e
        | .ok (t, rest1) =>
          if t < 31 then .error (SyntaxError "non-minimal tag") else .ok (t, rest1)
      else .ok (tag, rest)
    match tagged with
    | .error e => .error e
    | .ok (t, rest1) =>
      match parseLength rest1 with
      | .error e => .error e
      | .ok (length, rest2) => .ok (⟨cls, t, length, isCompound⟩, rest2)

/-- The Go function `checkInteger`: `none` when the content is a minimal integer. -/
def checkInteger : List Byte → Option String
  | [] => some (StructuralError "empty integer")
  | [_] => none
  | b0 :: b1 :: _ =>
    if (b0.val = 0 ∧ b1.val < 128) ∨ (b0.val = 255 ∧ b1.val ≥ 128) then
      some (StructuralError "integer not minimally-encoded")
    else none

/-- Reading of a 64-bit pattern as an `int64`. -/
def toInt64 (u : Nat) : Int := if u < 2 ^ 63 then (u : Int) else (u : Int) - 2 ^ 64

/-- The Go function `parseInt64`: big-endian two's complement, sign-extended by
shifting the 64-bit pattern up and (arithmetically) down again. -/
def parseInt64 (bytes : List Byte) : Except String Int :=
  match checkInteger bytes with
  | some e => .error e
  | none =>
    if bytes.length > 8 then .error (StructuralError "integer too large")
    else
      let ret := bytes.foldl (fun r b => (r * 256 + b.val) % 2 ^ 64) 0
      let sh := 64 - bytes.length * 8
      .ok (toInt64 ((ret * 2 ^ sh) % 2 ^ 64) / 2 ^ sh)

/-- Common part of `parseField` for a field without parameters: the header
must carry the expected universal tag, and the content must be present.
Returns the content `bytes[offset : offset+length]` and the bytes after it.
The text of the tag mismatch error is shortened: Go appends the two tags. -/
def parseFieldBody (expectedTag : Nat) (compoundType : Bool) (bytes : List Byte) :
    Except String (List Byte × List Byte) :=
  if bytes = [] then .error (SyntaxError "sequence truncated")
  else
    match parseTagAndLength bytes with
    | .error e => .error e
    | .ok (t, rest) =>
      if (t.cls ≠ ClassUniversal ∨ t.tag ≠ expectedTag) ∨ t.isCompound ≠ compoundType then
        .error (StructuralError "tags do not match")
      else if t.length > rest.length then .error (SyntaxError "data truncated")
      else .ok (rest.take t.length, rest.drop t.length)

/-- The Go function `parseField` at an `int` field. -/
def parseFieldInt (bytes : List Byte) : Except String (Int × List Byte) :=
  match parseFieldBody TagInteger false bytes with
  | .error e => .error e
  | .ok (inner, rest) =>
    match parseInt64 inner with
    | .error e => .error e
    | .ok v => .ok (v, rest)

/-- The Go function `parseField` at a `[]byte` field: a fresh, non-nil slice. -/
def parseFieldBytes (bytes : List Byte) : Except String (Bytes × List Byte) :=
  match parseFieldBody TagOctetString false bytes with
  | .error e => .error e
  | .ok (inner, rest) => .ok (some inner, rest)

end asn1

namespace sha256

/-- Round constants of SHA-256: the first 32 bits of the fractional parts of the
cube roots of the first 64 primes (1116352408 is `0x428a2f98`). -/
def K : List Nat := [
  1116352408, 1899447441, 3049323471, 3921009573, 961987163, 1508970993, 2453635748, 2870763221,
  3624381080, 310598401, 607225278, 1426881987, 1925078388, 2162078206, 2614888103, 3248222580,
  3835390401, 4022224774, 264347078, 604807628, 770255983, 1249150122, 1555081692, 1996064986,
  2554220882, 2821834349, 2952996808, 3210313671, 3336571891, 3584528711, 113926993, 338241895,
  666307205, 773529912, 1294757372, 1396182291, 1695183700, 1986661051, 2177026350, 2456956037,
  2730485921, 2820302411, 3259730800, 3345764771, 3516065817, 3600352804, 4094571909, 275423344,
  430227734, 506948616, 659060556, 883997877, 958139571, 1322822218, 1537002063, 1747873779,
  1955562222, 2024104815, 2227730452, 2361852424, 2428436474, 2756734187, 3204031479, 3329325298]

/-- Rotation of a 32-bit word to the right. -/
def rotr (x n : Nat) : Nat := ((x >>> n) ||| (x <<< (32 - n))) % 2 ^ 32

/-- Addition of 32-bit words. -/
def add32 (a b : Nat) : Nat := (a + b) % 2 ^ 32

/-- Complement of a 32-bit word. -/
def not32 (a : Nat) : Nat := 2 ^ 32 - 1 - a

/-- Message schedule: `n` more words after the ones in `w`. -/
def schedule : Nat → List Nat → List Nat
  | 0, w => w
  | n + 1, w =>
    let i := w.length
    let w15 := w.getD (i - 15) 0
    let w2 := w.getD (i - 2) 0
    let s0 := rotr w15 7 ^^^ rotr w15 18 ^^^ (w15 >>> 3)
    let s1 := rotr w2 17 ^^^ rotr w2 19 ^^^ (w2 >>> 10)
    schedule n (w ++ [add32 (add32 (w.getD (i - 16) 0) s0) (add32 (w.getD (i - 7) 0) s1)])

/-- The eight working variables. -/
structure State where
  a : Nat
  b : Nat
  c : Nat
  d : Nat
  e : Nat
  f : Nat
  g : Nat
  h : Nat

/-- One round, with round constant `kw.1` and schedule word `kw.2`. -/
def round (s : State) (kw : Nat × Nat) : State :=
  let S1 := rotr s.e 6 ^^^ rotr s.e 11 ^^^ rotr s.e 25
  let ch := (s.e &&& s.f) ^^^ (not32 s.e &&& s.g)
  let t1 := add32 (add32 (add32 s.h S1) (add32 ch kw.1)) kw.2
  let S0 := rotr s.a 2 ^^^ rotr s.a 13 ^^^ rotr s.a 22
  let maj := (s.a &&& s.b) ^^^ (s.a &&& s.c) ^^^ (s.b &&& s.c)
  let t2 := add32 S0 maj
  ⟨add32 t1 t2, s.a, s.b, s.c, add32 s.d t1, s.e, s.f, s.g⟩

/-- Compression of one 16-word block. -/
def block (s : State) (w16 : List Nat) : State :=
  let w := schedule 48 w16
  let r := (K.zip w).foldl round s
  ⟨add32 s.a r.a, add32 s.b r.b, add32 s.c r.c, add32 s.d r.d,
   add32 s.e r.e, add32 s.f r.f, add32 s.g r.g, add32 s.h r.h⟩

/-- The first `n` big-endian 32-bit words of a byte string. -/
def words : Nat → List Nat → List Nat
  | 0, _ => []
  | n + 1, bs =>
    (bs.getD 0 0 * 2 ^ 24 + bs.getD 1 0 * 2 ^ 16 + bs.getD 2 0 * 2 ^ 8 + bs.getD 3 0)
      :: words n (bs.drop 4)

/-- Compression of `n` consecutive 64-byte blocks. -/
def blocks : Nat → State → List Nat → State
  | 0, s, _ => s
  | n + 1, s, bs => blocks n (block s (words 16 bs)) (bs.drop 64)

/-- The `n` low bytes of `x`, big-endian. -/
def be : Nat → Nat → List Byte
  | 0, _ => []
  | n + 1, x => byte (x / 2 ^ (8 * n)) :: be n x

/-- Padding: the bit 1, zeros, and the bit length in 8 bytes. -/
def pad (m : List Nat) : List Nat :=
  m ++ [128] ++ List.replicate ((119 - m.length % 64) % 64) 0
    ++ (be 8 (8 * m.length)).map Fin.val

/-- The four bytes of a 32-bit word, big-endian. -/
def be4 (x : Nat) : List Byte :=
  [byte (x / 2 ^ 24), byte (x / 2 ^ 16), byte (x / 2 ^ 8), byte x]

/-- Initial hash value. -/
def init : State :=
  ⟨1779033703, 3144134277, 1013904242, 2773480762,
   1359893119, 2600822924, 528734635, 1541459225⟩

/-- The 32 bytes of the SHA-256 hash of `m`. -/
def sum (m : List Byte) : List Byte :=
  let p := pad (m.map Fin.val)
  let s := blocks (p.length / 64) init p
  be4 s.a ++ be4 s.b ++ be4 s.c ++ be4 s.d ++ be4 s.e ++ be4 s.f ++ be4 s.g ++ be4 s.h

/-- Output size of SHA-256 in bytes (`sha256.Size`). -/
def Size : Nat := 32

end sha256

/-- The type `Digest`, a `[sha256.Size]byte` array. -/
abbrev Digest := { l : List Byte // l.length = sha256.Size }

/-- The Go call `sha256.Sum256(data)`. -/
def sha256.Sum256 (data : List Byte) : Digest :=
  ⟨sha256.sum data, by simp [sha256.sum, sha256.be4, sha256.Size]⟩

namespace binary

/-- The Go call `binary.Write(buf, binary.BigEndian, v)` for a `uint64`: the 8
bytes appended to the buffer. -/
def WriteUint64 (v : Nat) : List Byte := asn1.appendLength 8 v

/-- Big-endian value of a byte string (`binary.BigEndian.Uint64` on 8 bytes). -/
def Uint64 (b : List Byte) : Nat := b.foldl (fun r x => r * 256 + x.val) 0

/-- The Go call `binary.Read(buf, binary.BigEndian, &epoch)` for a `uint64`:
the value, the unread rest of the buffer and the error. -/
def ReadUint64 (buf : List Byte) : Nat × List Byte × GoError :=
  if buf.length = 0 then (0, buf, some "EOF")
  else if buf.length < 8 then (0, [], some "unexpected EOF")
  else (Uint64 (buf.take 8), buf.drop 8, none)

end binary

namespace x509

/-- The two PKIX routines of `crypto/x509` that the wrapper calls, over a type
`κ` of public keys: `MarshalPKIXPublicKey` and `ParsePKIXPublicKey`, each
returning its value and its error. -/
structure PKIX (κ : Type) where
  MarshalPKIXPublicKey : κ → Bytes × GoError
  ParsePKIXPublicKey : List Byte → Option κ × GoError

end x509

namespace usig

/-- The type `usig.UI`: the counter and the certificate. -/
structure UI where
  Counter : Nat
  Cert : Bytes
deriving DecidableEq

end usig

namespace sgx

/-- What the wrapper does to the outside world, in order: lines written with
`log.Println` and calls into the enclave. -/
inductive Event where
  | log (line : String)
  | certify (digest : Digest)
  | verify (digest : Digest) (signature encryptedShares encryptedSecretH : Bytes)
deriving DecidableEq

/-- The enclave state and the events so far. -/
structure World (σ : Type) where
  enclave : σ
  trace : List Event
deriving DecidableEq

/-- The five results of the enclave's certify operation `CreateUI`. -/
structure Certified where
  counter : Nat
  signature : Bytes
  encryptedShares : Bytes
  encryptedSecretH : Bytes
  err : GoError
deriving DecidableEq

/-- The five results of `ParseCert`. -/
structure ParsedCert where
  epoch : Nat
  signature : Bytes
  encryptedShares : Bytes
  encryptedSecretH : Bytes
  err : GoError
deriving DecidableEq

/-- Modelled from the spec: the signing oracle `USIGEnclave`, whose code is not
part of the sources.  It exposes its epoch and public key, a certify operation
`CreateUI(digest)` returning `(counter, signature, encryptedShares,
encryptedSecretH, err)` and a verify operation `VerifyUI(digest, signature,
encryptedShares, encryptedSecretH)` returning `(shares, secretHash, err)`.
Both operations may read and change the enclave state `σ`. -/
structure USIGEnclave (σ κ : Type) where
  epoch : Nat
  publicKey : κ
  CreateUI : Digest → σ → Certified × σ
  VerifyUI : Digest → Bytes → Bytes → Bytes → σ → (Bytes × Digest × GoError) × σ

/-- The type `USIG`: a wrapper around a `USIGEnclave`. -/
structure USIG (σ κ : Type) where
  USIGEnclave : USIGEnclave σ κ

/-- Append one event to the trace. -/
def World.emit {σ : Type} (w : World σ) (e : Event) : World σ :=
  { w with trace := w.trace ++ [e] }

/-- The local struct type `certmaker` of `MakeCert`. -/
structure certmaker where
  E : Int
  S : Bytes
  ES : Bytes
  ESH : Bytes
deriving DecidableEq

/-- The local struct type `certparser` of `ParseCert`: the same four fields. -/
abbrev certparser := certmaker

/-- The local struct type `verifier` of `SharesSecretHashToBytes`. -/
structure verifier where
  S : Bytes
  SH : Bytes
deriving DecidableEq

/-- The four encoded fields of a `certmaker`, the content of its SEQUENCE. -/
def certmaker.body (c : certmaker) : List Byte :=
  asn1.marshalInt c.E ++ asn1.marshalBytes c.S ++ asn1.marshalBytes c.ES
    ++ asn1.marshalBytes c.ESH

/-- The Go call `asn1.Marshal(c)` for a `certmaker`: a SEQUENCE of an INTEGER
and three OCTET STRINGs.  These field types always encode, so `err` is nil. -/
def certmaker.Marshal (c : certmaker) : Bytes × GoError :=
  (some (asn1.marshalSequence c.body), none)

/-- The Go call `asn1.Marshal(v)` for a `verifier`: a SEQUENCE of two OCTET
STRINGs. -/
def verifier.Marshal (v : verifier) : Bytes × GoError :=
  (some (asn1.marshalSequence (asn1.marshalBytes v.S ++ asn1.marshalBytes v.SH)), none)

/-- The Go call `asn1.Unmarshal(cert, retStruct)` for a `certparser`: the
unparsed rest and the error, and the filled struct.  Bytes after the fourth
field inside the SEQUENCE are allowed; bytes after the SEQUENCE are the rest.
On an error the rest is nil. -/
def certparser.Unmarshal (b : Bytes) : (Bytes × GoError) × certparser :=
  let zero : certparser := ⟨0, none, none, none⟩
  match asn1.parseFieldBody asn1.TagSequence true b.content with
  | .error e => ((none, some e), zero)
  | .ok (inner, rest) =>
    match asn1.parseFieldInt inner with
    | .error e => ((none, some e), zero)
    | .ok (E, r1) =>
      match asn1.parseFieldBytes r1 with
      | .error e => ((none, some e), zero)
      | .ok (S, r2) =>
        match asn1.parseFieldBytes r2 with
        | .error e => ((none, some e), zero)
        | .ok (ES, r3) =>
          match asn1.parseFieldBytes r3 with
          | .error e => ((none, some e), zero)
          | .ok (ESH, _) => ((some rest, none), ⟨E, S, ES, ESH⟩)

/-- The function `messageDigest`. -/
def messageDigest (message : Bytes) : Digest := sha256.Sum256 message.content

/-- The function `MakeCert`: nil when a field is nil, else the DER encoding of
`certmaker` with `E` the `int` that `strconv.Atoi` returns for the decimal form
of `epoch` (its error is discarded). -/
def MakeCert (epoch : Nat) (signature encryptedShares encryptedSecretH : Bytes) :
    Outcome Bytes :=
  if signature = none ∨ encryptedShares = none ∨ encryptedSecretH = none then .ret none
  else
    let intNum := (strconv.Atoi (strconv.FormatUint epoch)).1
    let c : certmaker := ⟨intNum, signature, encryptedShares, encryptedSecretH⟩
    match c.Marshal with
    | (_, some err) => .panic err
    | (ret, none) => .ret ret

/-- The function `ParseCert`: panics with the decoding error when
`asn1.Unmarshal` fails (or returns a nil rest), else returns the fields with
`E` converted to `uint64` and a nil error. -/
def ParseCert (cert : Bytes) : Outcome ParsedCert :=
  match certparser.Unmarshal cert with
  | ((ret, err), retStruct) =>
    if err ≠ none ∨ ret = none then .panic (err.getD "nil")
    else .ret ⟨(retStruct.E % 2 ^ 64).toNat, retStruct.S, retStruct.ES, retStruct.ESH, err⟩

/-- The function `SharesSecretHashToBytes`. -/
def SharesSecretHashToBytes (share : Bytes) (secretHash : Digest) :
    Outcome (Bytes × GoError) :=
  let v : verifier := ⟨share, some secretHash.val⟩
  match v.Marshal with
  | (_, some err) => .panic err
  | (ret, none) => .ret (ret, none)

/-- The function `MakeID`: the 8 big-endian bytes of `epoch`, then the PKIX
form of the key.  Writing to the buffer does not fail. -/
def MakeID {κ : Type} (pkix : x509.PKIX κ) (epoch : Nat) (publicKey : κ) : Bytes × GoError :=
  match pkix.MarshalPKIXPublicKey publicKey with
  | (_, some err) => (none, some ("failed to serialize public key: " ++ err))
  | (publicKeyBytes, none) => (some (binary.WriteUint64 epoch ++ publicKeyBytes.content), none)

/-- The function `ParseID`. -/
def ParseID {κ : Type} (pkix : x509.PKIX κ) (usigID : Bytes) : Nat × Option κ × GoError :=
  match binary.ReadUint64 usigID.content with
  | (_, _, some err) => (0, none, some ("failed to extract epoch from USIG ID: " ++ err))
  | (epoch, buf, none) =>
    match pkix.ParsePKIXPublicKey buf with
    | (_, some err) => (0, none, some ("failed to parse public key: " ++ err))
    | (pubKey, none) => (epoch, pubKey, none)

/-- The method `USIG.CreateUI`. -/
def USIG.CreateUI {σ κ : Type} (u : USIG σ κ) (message : Bytes) (w : World σ) :
    Outcome (Option usig.UI × GoError) × World σ :=
  let d := messageDigest message
  match u.USIGEnclave.CreateUI d w.enclave with
  | (⟨counter, signature, encryptedShares, encryptedSecretH, err⟩, s) =>
    let w1 : World σ := ⟨s, w.trace ++ [Event.certify d]⟩
    if err ≠ none then (.ret (none, err), w1)
    else
      match MakeCert u.USIGEnclave.epoch signature encryptedShares encryptedSecretH with
      | .panic p => (.panic p, w1)
      | .ret cert => (.ret (some ⟨counter, cert⟩, none), w1)

/-- The method `USIG.ID`, with `u.Epoch()` and `u.PublicKey()` the epoch and the
public key of the enclave. -/
def USIG.ID {σ κ : Type} (pkix : x509.PKIX κ) (u : USIG σ κ) : Outcome Bytes :=
  match MakeID pkix u.USIGEnclave.epoch u.USIGEnclave.publicKey with
  | (_, some err) => .panic err
  | (id, none) => .ret id

/-- The method `USIG.VerifyUI`.  A nil `ui` is dereferenced at `ui.Cert`. -/
def USIG.VerifyUI {σ κ : Type} (u : USIG σ κ) (message : Bytes) (ui : Option usig.UI)
    (usigID : Bytes) (w : World σ) : Outcome (Bytes × GoError) × World σ :=
  let w1 :=
    if message = none ∨ ui = none ∨ usigID = none ∨ (ui.bind fun x => x.Cert) = none then
      w.emit (Event.log "Error in SGX! ui is nil")
    else w
  match ui with
  | none => (.panic "runtime error: invalid memory address or nil pointer dereference", w1)
  | some ui =>
    match ParseCert ui.Cert with
    | .panic p => (.panic p, w1)
    | .ret ⟨_, signature, encryptedShares, encryptedSecretH, err⟩ =>
      if err ≠ none then (.ret (none, some ("failed to parse UI cert: " ++ err.getD "")), w1)
      else
        let w2 :=
          if signature = none ∨ encryptedShares = none ∨ encryptedSecretH = none then
            w1.emit (Event.log "Error in SGX! something is nil!")
          else w1
        let d := messageDigest message
        match u.USIGEnclave.VerifyUI d signature encryptedShares encryptedSecretH w2.enclave with
        | ((shares, secretHash, err), s) =>
          let w3 : World σ :=
            ⟨s, w2.trace ++ [Event.verify d signature encryptedShares encryptedSecretH]⟩
          if err ≠ none then (.ret (none, some ("invalid UI: " ++ err.getD "")), w3)
          else
            match SharesSecretHashToBytes shares secretHash with
            | .panic p => (.panic p, w3)
            | .ret (bb, er) =>
              let w4 :=
                if shares = none then w3.emit (Event.log "Error in SGX! something is nil")
                else w3
              if er ≠ none then (.ret (bb, er), w4) else (.ret (bb, none), w4)

/-! ### Concrete instances

Small enclaves and a key format on which the operations can be evaluated. -/

/-- An enclave whose state is the last counter it issued.  Its certify
operation issues the next counter, with the digest as signature and fixed
shares; its verify operation accepts exactly the signatures equal to the
digest, with those shares. -/
def counterEnclave : USIGEnclave Nat (List Byte) where
  epoch := 3
  publicKey := [1, 2, 3]
  CreateUI := fun d s => (⟨s + 1, some d.val, some [16, 17], some [32], none⟩, s + 1)
  VerifyUI := fun d signature encryptedShares encryptedSecretH s =>
    if signature = some d.val ∧ encryptedShares = some [16, 17] ∧ encryptedSecretH = some [32]
    then ((some [119], d, none), s)
    else ((none, d, some "signature mismatch"), s)

/-- An enclave that declines to certify: its certify operation returns nil
fields and a nil error; its verify operation accepts everything. -/
def decliningEnclave : USIGEnclave Nat (List Byte) where
  epoch := 3
  publicKey := [1, 2, 3]
  CreateUI := fun _ s => (⟨s + 1, none, none, none, none⟩, s + 1)
  VerifyUI := fun d _ _ _ s => ((some [119], d, none), s)

/-- A key format in which a key is its own serialized form; the empty key
neither serializes nor parses. -/
def rawPKIX : x509.PKIX (List Byte) where
  MarshalPKIXPublicKey := fun k =>
    if k = [] then (none, some "x509: unsupported public key type") else (some k, none)
  ParsePKIXPublicKey := fun b =>
    if b = [] then (none, some "asn1: syntax error: sequence truncated") else (some b, none)

/-- The byte string `b` with bit `k` of its byte at index `i` flipped. -/
def flipBit (b : List Byte) (i k : Nat) : List Byte :=
  b.set i (byte ((b.getD i 0).val ^^^ 2 ^ k))

/-- The message `order#42` of the scenario in the specification. -/
def order42 : Bytes := some [111, 114, 100, 101, 114, 35, 52, 50]

/-- The world before any call: counter 0, nothing traced. -/
def world0 : World Nat := ⟨0, []⟩

/-- The wrapper around `counterEnclave`. -/
def counterUSIG : USIG Nat (List Byte) := ⟨counterEnclave⟩

/-- The wrapper around `decliningEnclave`. -/
def decliningUSIG : USIG Nat (List Byte) := ⟨decliningEnclave⟩

/-- The certificate that `counterUSIG` creates for `order42`: epoch 3, the
digest of the message as signature, shares `[16, 17]` and secret hash `[32]`. -/
def cert42 : List Byte :=
  [48, 44, 2, 1, 3, 4, 32] ++ (messageDigest order42).val ++ [4, 2, 16, 17, 4, 1, 32]

/-- The bytes that `VerifyUI` returns for `cert42`: the shares `[119]` and the
digest as secret hash, packaged by `SharesSecretHashToBytes`. -/
def verified42 : List Byte := [48, 37, 4, 1, 119, 4, 32] ++ (messageDigest order42).val

/-- Calls of `CreateUI` made one after another, one per message, each in the
world that the previous call left: the results in order and the last world. -/
def USIG.CreateUIs {σ κ : Type} (u : USIG σ κ) :
    List Bytes → World σ → List (Outcome (Option usig.UI × GoError)) × World σ
  | [], w => ([], w)
  | message :: rest, w =>
    let r := u.CreateUI message w
    let rs := USIG.CreateUIs u rest r.2
    (r.1 :: rs.1, rs.2)

/-- The result of a successful call of `CreateUI`: the UI and a nil error. -/
def created (ui : usig.UI) : Outcome (Option usig.UI × GoError) := .ret (some ui, none)

/-- The message `order#43` of the scenario in the specification. -/
def order43 : Bytes := some [111, 114, 100, 101, 114, 35, 52, 51]

end sgx

/-! ## Known answers

The embedded SHA-256 and DER encoder on inputs whose outputs are known. -/

namespace sgx

set_option maxRecDepth 100000

/-- The SHA-256 digest of `abc` is `ba7816bf 8f01cfea 414140de 5dae2223 b00361a3
96177a9c b410ff61 f20015ad`. -/
theorem messageDigest_abc :
    (messageDigest (some [97, 98, 99])).val =
      [186, 120, 22, 191, 143, 1, 207, 234, 65, 65, 64, 222, 93, 174, 34, 35,
       176, 3, 97, 163, 150, 23, 122, 156, 180, 16, 255, 97, 242, 0, 21, 173] := by
  decide

/-- The certificate of epoch 128 with an empty signature and a 200-byte last
field starts with `30 81 d4 02 02 00 80 04 00 04 01 bb 04 81 c8`. -/
theorem MakeCert_known_answer :
    MakeCert 128 (some []) (some [187]) (some (List.replicate 200 1)) =
      .ret (some ([48, 129, 212, 2, 2, 0, 128, 4, 0, 4, 1, 187, 4, 129, 200]
        ++ List.replicate 200 1)) := by
  decide

end sgx

/-! ## Lemmas on `strconv`: the epoch field of a certificate -/

namespace strconv

theorem byte_digit_val (d : Nat) (h : d < 10) : (byte (48 + d)).val = 48 + d := by
  simp [byte]; omega

theorem atoiLoop_append (l1 l2 : List Byte) (n m : Nat) (h : atoiLoop n l1 = some m) :
    atoiLoop n (l1 ++ l2) = atoiLoop m l2 := by
  induction l1 generalizing n with
  | nil => simp [atoiLoop] at h; subst h; rfl
  | cons c t ih =>
    simp only [atoiLoop, List.cons_append] at h ⊢
    split at h
    · rw [if_pos (by assumption)]; exact ih _ h
    · cases h

theorem ParseUintLoop_append (l1 l2 : List Byte) (n m : Nat)
    (h : ParseUintLoop n l1 = (m, none)) :
    ParseUintLoop n (l1 ++ l2) = ParseUintLoop m l2 := by
  induction l1 generalizing n with
  | nil => simp [ParseUintLoop] at h; subst h; rfl
  | cons c t ih =>
    simp only [ParseUintLoop, List.cons_append] at h ⊢
    split at h
    · rw [if_pos (by assumption)]
      split at h
      · cases h
      · rw [if_neg (by assumption)]
        split at h
        · cases h
        · rw [if_neg (by assumption)]; exact ih _ h
    · cases h

theorem single_digit (u : Nat) (h : u < 10) :
    atoiLoop 0 [byte (48 + u)] = some u ∧ ParseUintLoop 0 [byte (48 + u)] = (u, none) := by
  have hv := byte_digit_val u h
  constructor
  · simp [atoiLoop, hv]; omega
  · simp only [ParseUintLoop, hv, maxUint64]
    rw [if_pos (by omega), if_neg (by omega), if_neg (by omega)]
    simp

/-- What `formatBits` puts in front of `acc`: a non-empty run of digit bytes
that both parsing loops read back as `u`. -/
theorem formatBits_spec (fuel u : Nat) (acc : List Byte) (h : u < 10 ^ (fuel + 1)) :
    ∃ ds : List Byte, formatBits (fuel + 1) u acc = ds ++ acc ∧ ds ≠ [] ∧
      (∀ c ∈ ds, 48 ≤ c.val ∧ c.val ≤ 57) ∧ u < 10 ^ ds.length ∧
      atoiLoop 0 ds = some u ∧ (u ≤ maxUint64 → ParseUintLoop 0 ds = (u, none)) := by
  induction fuel generalizing u acc with
  | zero =>
    have h10 : u < 10 := by simpa using h
    refine ⟨[byte (48 + u)], ?_, by simp, ?_, by simpa using h10, (single_digit u h10).1,
      fun _ => (single_digit u h10).2⟩
    · simp [formatBits, h10]
    · intro c hc
      simp only [List.mem_singleton] at hc
      subst hc
      rw [byte_digit_val u h10]; omega
  | succ f ih =>
    by_cases h10 : u < 10
    · refine ⟨[byte (48 + u)], ?_, by simp, ?_, by simpa using h10, (single_digit u h10).1,
        fun _ => (single_digit u h10).2⟩
      · simp [formatBits, h10]
      · intro c hc
        simp only [List.mem_singleton] at hc
        subst hc
        rw [byte_digit_val u h10]; omega
    · have hq : u / 10 < 10 ^ (f + 1) := by
        rw [Nat.div_lt_iff_lt_mul (by decide)]
        calc u < 10 ^ (f + 1 + 1) := h
          _ = 10 ^ (f + 1) * 10 := by rw [pow_succ]
      obtain ⟨ds, hfmt, hne, hdig, hlen, hatoi, hpu⟩ :=
        ih (u / 10) (byte (48 + u % 10) :: acc) hq
      have hd : u % 10 < 10 := Nat.mod_lt _ (by decide)
      have hv := byte_digit_val (u % 10) hd
      refine ⟨ds ++ [byte (48 + u % 10)], ?_, by simp, ?_, ?_, ?_, ?_⟩
      · rw [formatBits, if_neg h10, hfmt]; simp
      · intro c hc
        rcases List.mem_append.mp hc with hc | hc
        · exact hdig c hc
        · simp only [List.mem_singleton] at hc
          subst hc
          rw [hv]; omega
      · rw [List.length_append, List.length_singleton, pow_succ]
        omega
      · rw [atoiLoop_append ds _ 0 (u / 10) hatoi]
        simp [atoiLoop, hv]; omega
      · intro hmax
        have hq2 : u / 10 ≤ maxUint64 := le_trans (Nat.div_le_self _ _) hmax
        rw [ParseUintLoop_append ds _ 0 (u / 10) (hpu hq2)]
        simp only [maxUint64] at hmax
        simp only [ParseUintLoop, hv, maxUint64]
        rw [if_pos (by omega), if_neg (by omega), if_neg (by omega)]
        congr 1
        omega

/-- The value `MakeCert` puts into the certificate: `Atoi` of the decimal form
of a `uint64` is the number itself below `2 ^ 63`, and `2 ^ 63 - 1` with a
range error from there on. -/
theorem Atoi_FormatUint (e : Nat) (h : e < 2 ^ 64) :
    Atoi (FormatUint e) =
      if e < 2 ^ 63 then ((e : Int), none) else ((2 ^ 63 - 1 : Int), some NumError.ErrRange) := by
  obtain ⟨ds, hfmt, hne, hdig, hlen, hatoi, hpu⟩ :=
    formatBits_spec 19 e [] (lt_trans h (by norm_num))
  have hds : FormatUint e = ds := by simp [FormatUint, hfmt]
  rw [hds]
  obtain ⟨c, t, rfl⟩ := List.exists_cons_of_ne_nil hne
  have hc := hdig c (List.mem_cons_self _ _)
  have hc1 : ¬ (c.val = 45 ∨ c.val = 43) := by omega
  have hc2 : ¬ (c.val = 43 ∨ c.val = 45) := by omega
  have hc3 : ¬ c.val = 45 := by omega
  by_cases hfast : 0 < (c :: t).length ∧ (c :: t).length < 19
  · have he : e < 2 ^ 63 := by
      have : (10 : Nat) ^ (c :: t).length ≤ 10 ^ 18 :=
        Nat.pow_le_pow_right (by decide) (by omega)
      have h18 : (10 : Nat) ^ 18 < 2 ^ 63 := by norm_num
      omega
    simp only [Atoi, if_pos hfast, hc1, if_false, false_and, hatoi, if_neg hc3, if_pos he]
  · have hmax : e ≤ maxUint64 := by simp only [maxUint64]; omega
    have h43 : ¬ c.val = 43 := by omega
    have hp := hpu hmax
    simp only [Atoi, if_neg hfast, ParseInt, ParseUint]
    by_cases he : e < 2 ^ 63
    · have he2 : ¬ (9223372036854775808 ≤ e) := by omega
      simp [h43, hc3, hp, he2]
      rw [if_pos (by omega)]
    · have he2 : 9223372036854775808 ≤ e := by omega
      simp [h43, hc3, hp, he2]
      rw [if_neg (by omega)]

end strconv

/-! ## Lemmas on `encoding/asn1`: what is written is read back -/

namespace asn1

theorem lengthLength_cases (L : Nat) (hL : L < 2 ^ 31) :
    (L < 256 ∧ lengthLength L = 1) ∨ (256 ≤ L ∧ L < 65536 ∧ lengthLength L = 2) ∨
    (65536 ≤ L ∧ L < 16777216 ∧ lengthLength L = 3) ∨
    (16777216 ≤ L ∧ lengthLength L = 4) := by
  by_cases h1 : L < 256
  · left
    refine ⟨h1, ?_⟩
    simp [lengthLength, lengthLengthLoop]; omega
  · by_cases h2 : L < 65536
    · right; left
      refine ⟨by omega, h2, ?_⟩
      have a1 : L > 255 := by omega
      have a2 : ¬ L / 256 > 255 := by omega
      simp [lengthLength, lengthLengthLoop, a1, a2]
    · by_cases h3 : L < 16777216
      · right; right; left
        refine ⟨by omega, h3, ?_⟩
        have a1 : L > 255 := by omega
        have a2 : L / 256 > 255 := by omega
        have a3 : ¬ L / 256 / 256 > 255 := by omega
        simp [lengthLength, lengthLengthLoop, a1, a2, a3]
      · right; right; right
        refine ⟨by omega, ?_⟩
        have a1 : L > 255 := by omega
        have a2 : L / 256 > 255 := by omega
        have a3 : L / 256 / 256 > 255 := by omega
        have a4 : ¬ L / 256 / 256 / 256 > 255 := by omega
        simp [lengthLength, lengthLengthLoop, a1, a2, a3, a4]

theorem byte_val (x : Nat) : (byte x).val = x % 256 := rfl

/-- The length octets that `appendTagAndLength` writes are read back by
`parseLength`, for every length below `2 ^ 31`. -/
theorem parseLength_appendLength (L : Nat) (hL : L < 2 ^ 31) (rest : List Byte) :
    parseLength ((if L ≥ 128 then
        byte (128 + lengthLength L) :: appendLength (lengthLength L) L
      else [byte L]) ++ rest) = .ok (L, rest) := by
  by_cases h0 : L ≥ 128
  · rw [if_pos h0]
    rcases lengthLength_cases L hL with ⟨h, hl⟩ | ⟨h, h', hl⟩ | ⟨h, h', hl⟩ | ⟨h, hl⟩
    · simp only [hl, appendLength, parseLength, parseLengthLoop, byte_val, List.cons_append,
        List.nil_append]
      iterate 4 rw [if_neg (by omega)]
      simp only []
      rw [if_neg (by omega)]
      congr 2
      omega
    · simp only [hl, appendLength, parseLength, parseLengthLoop, byte_val, List.cons_append,
        List.nil_append]
      iterate 6 rw [if_neg (by omega)]
      simp only []
      rw [if_neg (by omega)]
      congr 2
      omega
    · simp only [hl, appendLength, parseLength, parseLengthLoop, byte_val, List.cons_append,
        List.nil_append]
      iterate 8 rw [if_neg (by omega)]
      simp only []
      rw [if_neg (by omega)]
      congr 2
      omega
    · simp only [hl, appendLength, parseLength, parseLengthLoop, byte_val, List.cons_append,
        List.nil_append]
      iterate 10 rw [if_neg (by omega)]
      simp only []
      rw [if_neg (by omega)]
      congr 2
      omega
  · rw [if_neg h0]
    have : L < 128 := by omega
    simp only [parseLength, byte_val, List.cons_append, List.nil_append]
    rw [if_pos (by omega)]
    congr 2
    omega

theorem parseTagAndLength_cons (b : Byte) (rest : List Byte) (h : ¬ b.val % 32 = 31) :
    parseTagAndLength (b :: rest) =
      match parseLength rest with
      | .error e => .error e
      | .ok (length, rest2) =>
        .ok (⟨b.val / 64, b.val % 32, length, decide ((b.val / 32) % 2 = 1)⟩, rest2) := by
  simp only [parseTagAndLength, if_neg h]

/-- A header written by `appendTagAndLength` (universal class, short tag,
length below `2 ^ 31`) is read back by `parseTagAndLength`. -/
theorem parseTagAndLength_append (tag L : Nat) (c : Bool) (rest : List Byte)
    (htag : tag < 31) (hL : L < 2 ^ 31) :
    parseTagAndLength (appendTagAndLength ⟨ClassUniversal, tag, L, c⟩ ++ rest)
      = .ok (⟨ClassUniversal, tag, L, c⟩, rest) := by
  have hlen := parseLength_appendLength L hL rest
  have hb : ∀ x : Nat, x < 256 → (byte x).val = x := fun x hx => by
    rw [byte_val]; omega
  simp only [appendTagAndLength, ClassUniversal, if_neg (show ¬ tag ≥ 31 by omega),
    List.cons_append, List.nil_append, List.append_assoc]
  cases c
  · have hv := hb (0 * 64 + (if false = true then 32 else 0) + tag) (by simp; omega)
    have hv2 : (byte (0 * 64 + (if false = true then 32 else 0) + tag)).val = tag := by
      rw [hv]; simp
    rw [parseTagAndLength_cons _ _ (by rw [hv2]; omega), hlen, hv2]
    simp only []
    congr 3
    · omega
    · omega
    · simp; omega
  · have hv := hb (0 * 64 + (if true = true then 32 else 0) + tag) (by simp; omega)
    have hv2 : (byte (0 * 64 + (if true = true then 32 else 0) + tag)).val = 32 + tag := by
      rw [hv]; simp
    rw [parseTagAndLength_cons _ _ (by rw [hv2]; omega), hlen, hv2]
    simp only []
    congr 3
    · omega
    · omega
    · simp; omega

/-- An element written with `appendTagAndLength` in front of its content is
split by `parseFieldBody` into that content and the bytes after it. -/
theorem parseFieldBody_append (tag : Nat) (c : Bool) (content rest : List Byte)
    (htag : tag < 31) (hL : content.length < 2 ^ 31) :
    parseFieldBody tag c
        (appendTagAndLength ⟨ClassUniversal, tag, content.length, c⟩ ++ content ++ rest)
      = .ok (content, rest) := by
  have hne : appendTagAndLength ⟨ClassUniversal, tag, content.length, c⟩ ++ content ++ rest
      ≠ [] := by
    simp [appendTagAndLength]
    intro h
    split at h <;> simp at h
  rw [parseFieldBody, if_neg hne, List.append_assoc,
    parseTagAndLength_append tag content.length c (content ++ rest) htag hL]
  simp

end asn1

namespace asn1

theorem byteOfInt_val (x : Int) : ((byteOfInt x).val : Int) = x % 256 := by
  simp [byteOfInt]; omega

theorem byteOfInt_natCast (x : Nat) : byteOfInt (x : Int) = byte x := by
  apply Fin.ext
  simp [byteOfInt, byte]
  omega

theorem int64Encode_natCast (n e : Nat) :
    int64Encode n (e : Int) = appendLength n e := by
  induction n with
  | zero => rfl
  | succ k ih =>
    simp only [int64Encode, appendLength, ih]
    congr 1
    have : ((e : Int) / 2 ^ (k * 8)) = ((e / 2 ^ (k * 8) : Nat) : Int) := by
      push_cast; rfl
    rw [this, byteOfInt_natCast]

theorem int64Len_eq_1 (e : Nat) (hlo : 0 ≤ e) (hhi : e < 128) :
    int64Len (e : Int) = 1 := by
  have b0 : ¬ ((e : Int) > 127) := by omega
  have b1 : ¬ ((e : Int) < -128) := by omega
  simp [int64Len, lenLoopPos, lenLoopNeg, b0, b1]

theorem parseInt64_appendLength_1 (e : Nat) (hlo : 0 ≤ e) (hhi : e < 128) :
    parseInt64 (appendLength 1 e) = .ok (e : Int) := by
  simp only [appendLength, parseInt64, checkInteger, byte_val, List.foldl, List.length_cons,
    List.length_nil, toInt64]
  norm_num
  rw [if_pos (by omega)]
  omega

theorem int64Len_eq_2 (e : Nat) (hlo : 128 ≤ e) (hhi : e < 32768) :
    int64Len (e : Int) = 2 := by
  have a0 : (e : Int) > 127 := by omega
  have b0 : ¬ ((e : Int) / 256 > 127) := by omega
  have b1 : ¬ ((e : Int) / 256 < -128) := by omega
  simp [int64Len, lenLoopPos, lenLoopNeg, a0, b0, b1]

theorem parseInt64_appendLength_2 (e : Nat) (hlo : 128 ≤ e) (hhi : e < 32768) :
    parseInt64 (appendLength 2 e) = .ok (e : Int) := by
  simp only [appendLength, parseInt64, checkInteger, byte_val, List.foldl, List.length_cons,
    List.length_nil, toInt64]
  norm_num
  rw [if_neg (by omega)]
  simp only []
  rw [if_pos (by omega)]
  congr 1
  omega

theorem int64Len_eq_3 (e : Nat) (hlo : 32768 ≤ e) (hhi : e < 8388608) :
    int64Len (e : Int) = 3 := by
  have a0 : (e : Int) > 127 := by omega
  have a1 : (e : Int) / 256 > 127 := by omega
  have b0 : ¬ ((e : Int) / 256 / 256 > 127) := by omega
  have b1 : ¬ ((e : Int) / 256 / 256 < -128) := by omega
  simp [int64Len, lenLoopPos, lenLoopNeg, a0, a1, b0, b1]

theorem parseInt64_appendLength_3 (e : Nat) (hlo : 32768 ≤ e) (hhi : e < 8388608) :
    parseInt64 (appendLength 3 e) = .ok (e : Int) := by
  simp only [appendLength, parseInt64, checkInteger, byte_val, List.foldl, List.length_cons,
    List.length_nil, toInt64]
  norm_num
  rw [if_neg (by omega)]
  simp only []
  rw [if_pos (by omega)]
  congr 1
  omega

theorem int64Len_eq_4 (e : Nat) (hlo : 8388608 ≤ e) (hhi : e < 2147483648) :
    int64Len (e : Int) = 4 := by
  have a0 : (e : Int) > 127 := by omega
  have a1 : (e : Int) / 256 > 127 := by omega
  have a2 : (e : Int) / 256 / 256 > 127 := by omega
  have b0 : ¬ ((e : Int) / 256 / 256 / 256 > 127) := by omega
  have b1 : ¬ ((e : Int) / 256 / 256 / 256 < -128) := by omega
  simp [int64Len, lenLoopPos, lenLoopNeg, a0, a1, a2, b0, b1]

theorem parseInt64_appendLength_4 (e : Nat) (hlo : 8388608 ≤ e) (hhi : e < 2147483648) :
    parseInt64 (appendLength 4 e) = .ok (e : Int) := by
  simp only [appendLength, parseInt64, checkInteger, byte_val, List.foldl, List.length_cons,
    List.length_nil, toInt64]
  norm_num
  rw [if_neg (by omega)]
  simp only []
  rw [if_pos (by omega)]
  congr 1
  omega

theorem int64Len_eq_5 (e : Nat) (hlo : 2147483648 ≤ e) (hhi : e < 549755813888) :
    int64Len (e : Int) = 5 := by
  have a0 : (e : Int) > 127 := by omega
  have a1 : (e : Int) / 256 > 127 := by omega
  have a2 : (e : Int) / 256 / 256 > 127 := by omega
  have a3 : (e : Int) / 256 / 256 / 256 > 127 := by omega
  have b0 : ¬ ((e : Int) / 256 / 256 / 256 / 256 > 127) := by omega
  have b1 : ¬ ((e : Int) / 256 / 256 / 256 / 256 < -128) := by omega
  simp [int64Len, lenLoopPos, lenLoopNeg, a0, a1, a2, a3, b0, b1]

theorem parseInt64_appendLength_5 (e : Nat) (hlo : 2147483648 ≤ e) (hhi : e < 549755813888) :
    parseInt64 (appendLength 5 e) = .ok (e : Int) := by
  simp only [appendLength, parseInt64, checkInteger, byte_val, List.foldl, List.length_cons,
    List.length_nil, toInt64]
  norm_num
  rw [if_neg (by omega)]
  simp only []
  rw [if_pos (by omega)]
  congr 1
  omega

theorem int64Len_eq_6 (e : Nat) (hlo : 549755813888 ≤ e) (hhi : e < 140737488355328) :
    int64Len (e : Int) = 6 := by
  have a0 : (e : Int) > 127 := by omega
  have a1 : (e : Int) / 256 > 127 := by omega
  have a2 : (e : Int) / 256 / 256 > 127 := by omega
  have a3 : (e : Int) / 256 / 256 / 256 > 127 := by omega
  have a4 : (e : Int) / 256 / 256 / 256 / 256 > 127 := by omega
  have b0 : ¬ ((e : Int) / 256 / 256 / 256 / 256 / 256 > 127) := by omega
  have b1 : ¬ ((e : Int) / 256 / 256 / 256 / 256 / 256 < -128) := by omega
  simp [int64Len, lenLoopPos, lenLoopNeg, a0, a1, a2, a3, a4, b0, b1]

theorem parseInt64_appendLength_6 (e : Nat) (hlo : 549755813888 ≤ e) (hhi : e < 140737488355328) :
    parseInt64 (appendLength 6 e) = .ok (e : Int) := by
  simp only [appendLength, parseInt64, checkInteger, byte_val, List.foldl, List.length_cons,
    List.length_nil, toInt64]
  norm_num
  rw [if_neg (by omega)]
  simp only []
  rw [if_pos (by omega)]
  congr 1
  omega

theorem int64Len_eq_7 (e : Nat) (hlo : 140737488355328 ≤ e) (hhi : e < 36028797018963968) :
    int64Len (e : Int) = 7 := by
  have a0 : (e : Int) > 127 := by omega
  have a1 : (e : Int) / 256 > 127 := by omega
  have a2 : (e : Int) / 256 / 256 > 127 := by omega
  have a3 : (e : Int) / 256 / 256 / 256 > 127 := by omega
  have a4 : (e : Int) / 256 / 256 / 256 / 256 > 127 := by omega
  have a5 : (e : Int) / 256 / 256 / 256 / 256 / 256 > 127 := by omega
  have b0 : ¬ ((e : Int) / 256 / 256 / 256 / 256 / 256 / 256 > 127) := by omega
  have b1 : ¬ ((e : Int) / 256 / 256 / 256 / 256 / 256 / 256 < -128) := by omega
  simp [int64Len, lenLoopPos, lenLoopNeg, a0, a1, a2, a3, a4, a5, b0, b1]

theorem parseInt64_appendLength_7 (e : Nat) (hlo : 140737488355328 ≤ e) (hhi : e < 36028797018963968) :
    parseInt64 (appendLength 7 e) = .ok (e : Int) := by
  simp only [appendLength, parseInt64, checkInteger, byte_val, List.foldl, List.length_cons,
    List.length_nil, toInt64]
  norm_num
  rw [if_neg (by omega)]
  simp only []
  rw [if_pos (by omega)]
  congr 1
  omega

theorem int64Len_eq_8 (e : Nat) (hlo : 36028797018963968 ≤ e) (hhi : e < 9223372036854775808) :
    int64Len (e : Int) = 8 := by
  have a0 : (e : Int) > 127 := by omega
  have a1 : (e : Int) / 256 > 127 := by omega
  have a2 : (e : Int) / 256 / 256 > 127 := by omega
  have a3 : (e : Int) / 256 / 256 / 256 > 127 := by omega
  have a4 : (e : Int) / 256 / 256 / 256 / 256 > 127 := by omega
  have a5 : (e : Int) / 256 / 256 / 256 / 256 / 256 > 127 := by omega
  have a6 : (e : Int) / 256 / 256 / 256 / 256 / 256 / 256 > 127 := by omega
  have b0 : ¬ ((e : Int) / 256 / 256 / 256 / 256 / 256 / 256 / 256 > 127) := by omega
  have b1 : ¬ ((e : Int) / 256 / 256 / 256 / 256 / 256 / 256 / 256 < -128) := by omega
  simp [int64Len, lenLoopPos, lenLoopNeg, a0, a1, a2, a3, a4, a5, a6, b0, b1]

theorem parseInt64_appendLength_8 (e : Nat) (hlo : 36028797018963968 ≤ e) (hhi : e < 9223372036854775808) :
    parseInt64 (appendLength 8 e) = .ok (e : Int) := by
  simp only [appendLength, parseInt64, checkInteger, byte_val, List.foldl, List.length_cons,
    List.length_nil, toInt64]
  norm_num
  rw [if_neg (by omega)]
  simp only []
  rw [if_pos (by omega)]
  congr 1
  omega

end asn1

namespace asn1

theorem appendLength_length (n i : Nat) : (appendLength n i).length = n := by
  induction n with
  | zero => rfl
  | succ k ih => simp [appendLength, ih]

/-- An `int` in `[0, 2 ^ 63)` is written in 1 to 8 bytes that `parseInt64`
reads back. -/
theorem parseInt64_int64Encode (e : Nat) (h : e < 2 ^ 63) :
    parseInt64 (int64Encode (int64Len (e : Int)) (e : Int)) = .ok (e : Int) ∧
      int64Len (e : Int) ≤ 8 := by
  by_cases h1 : e < 128
  · rw [int64Len_eq_1 e (by omega) h1, int64Encode_natCast]
    exact ⟨parseInt64_appendLength_1 e (by omega) h1, by omega⟩
  by_cases h2 : e < 32768
  · rw [int64Len_eq_2 e (by omega) h2, int64Encode_natCast]
    exact ⟨parseInt64_appendLength_2 e (by omega) h2, by omega⟩
  by_cases h3 : e < 8388608
  · rw [int64Len_eq_3 e (by omega) h3, int64Encode_natCast]
    exact ⟨parseInt64_appendLength_3 e (by omega) h3, by omega⟩
  by_cases h4 : e < 2147483648
  · rw [int64Len_eq_4 e (by omega) h4, int64Encode_natCast]
    exact ⟨parseInt64_appendLength_4 e (by omega) h4, by omega⟩
  by_cases h5 : e < 549755813888
  · rw [int64Len_eq_5 e (by omega) h5, int64Encode_natCast]
    exact ⟨parseInt64_appendLength_5 e (by omega) h5, by omega⟩
  by_cases h6 : e < 140737488355328
  · rw [int64Len_eq_6 e (by omega) h6, int64Encode_natCast]
    exact ⟨parseInt64_appendLength_6 e (by omega) h6, by omega⟩
  by_cases h7 : e < 36028797018963968
  · rw [int64Len_eq_7 e (by omega) h7, int64Encode_natCast]
    exact ⟨parseInt64_appendLength_7 e (by omega) h7, by omega⟩
  · rw [int64Len_eq_8 e (by omega) (by omega), int64Encode_natCast]
    exact ⟨parseInt64_appendLength_8 e (by omega) (by omega), by omega⟩

theorem int64Encode_length (n : Nat) (i : Int) : (int64Encode n i).length = n := by
  induction n with
  | zero => rfl
  | succ k ih => simp [int64Encode, ih]

/-- An INTEGER field written by `marshalInt` is read back by `parseFieldInt`. -/
theorem parseFieldInt_marshalInt (e : Nat) (h : e < 2 ^ 63) (rest : List Byte) :
    parseFieldInt (marshalInt (e : Int) ++ rest) = .ok ((e : Int), rest) := by
  obtain ⟨hp, hl⟩ := parseInt64_int64Encode e h
  have hb := parseFieldBody_append TagInteger false
    (int64Encode (int64Len (e : Int)) (e : Int)) rest (by decide)
    (by rw [int64Encode_length]; omega)
  rw [int64Encode_length] at hb
  simp only [parseFieldInt, marshalInt, hb, hp]

/-- An OCTET STRING field written by `marshalBytes` is read back by
`parseFieldBytes` as a non-nil slice with the same content. -/
theorem parseFieldBytes_marshalBytes (b : Bytes) (h : b.content.length < 2 ^ 31)
    (rest : List Byte) :
    parseFieldBytes (marshalBytes b ++ rest) = .ok (some b.content, rest) := by
  have hb := parseFieldBody_append TagOctetString false b.content rest (by decide) h
  simp only [parseFieldBytes, marshalBytes, hb]

theorem marshalBytes_length_ge (b : Bytes) : b.content.length ≤ (marshalBytes b).length := by
  simp [marshalBytes]

end asn1

namespace sgx

/-- Decoding what `certmaker.Marshal` wrote, followed by any bytes `t`: the four
fields come back and `t` is the rest, provided the epoch field is below
`2 ^ 63` and the fields together take fewer than `2 ^ 31` bytes. -/
theorem Unmarshal_Marshal (e : Nat) (S ES ESH : Bytes) (t : List Byte) (he : e < 2 ^ 63)
    (hsize : (certmaker.body ⟨(e : Int), S, ES, ESH⟩).length < 2 ^ 31) :
    certparser.Unmarshal
        (some ((certmaker.Marshal ⟨(e : Int), S, ES, ESH⟩).1.content ++ t))
      = ((some t, none), ⟨(e : Int), some S.content, some ES.content, some ESH.content⟩) := by
  have h1 := asn1.marshalBytes_length_ge S
  have h2 := asn1.marshalBytes_length_ge ES
  have h3 := asn1.marshalBytes_length_ge ESH
  simp only [certmaker.body] at hsize
  have hsz := hsize
  simp only [List.length_append] at hsz
  have hseq := asn1.parseFieldBody_append asn1.TagSequence true
    (asn1.marshalInt (e : Int) ++ asn1.marshalBytes S ++ asn1.marshalBytes ES
      ++ asn1.marshalBytes ESH) t (by decide) hsize
  have hint := asn1.parseFieldInt_marshalInt e he
    (asn1.marshalBytes S ++ (asn1.marshalBytes ES ++ asn1.marshalBytes ESH))
  have hS := asn1.parseFieldBytes_marshalBytes S (by omega)
    (asn1.marshalBytes ES ++ asn1.marshalBytes ESH)
  have hES := asn1.parseFieldBytes_marshalBytes ES (by omega) (asn1.marshalBytes ESH)
  have hESH := asn1.parseFieldBytes_marshalBytes ESH (by omega) []
  rw [List.append_nil] at hESH
  simp only [certparser.Unmarshal, certmaker.Marshal, certmaker.body, Bytes.content,
    Option.getD_some, asn1.marshalSequence] at hseq ⊢
  rw [hseq]
  simp only [List.append_assoc] at hint ⊢
  simp only [hint, hS, hES, hESH, Bytes.content]

end sgx

/-! ## Lemmas on the wrapper -/

namespace sgx

/-- The `int` that `MakeCert` stores for a `uint64` epoch. -/
theorem intNum_eq (epoch : Nat) (h : epoch < 2 ^ 64) :
    (strconv.Atoi (strconv.FormatUint epoch)).1 = ((min epoch (2 ^ 63 - 1) : Nat) : Int) := by
  rw [strconv.Atoi_FormatUint epoch h]
  by_cases he : epoch < 2 ^ 63
  · rw [if_pos he, Nat.min_eq_left (by omega)]
  · rw [if_neg he, Nat.min_eq_right (by omega)]
    norm_num

/-- With no field nil, `MakeCert` returns the DER encoding of its `certmaker`. -/
theorem MakeCert_some (epoch : Nat) (s es esh : List Byte) :
    MakeCert epoch (some s) (some es) (some esh) =
      .ret (some (asn1.marshalSequence (certmaker.body
        ⟨(strconv.Atoi (strconv.FormatUint epoch)).1, some s, some es, some esh⟩))) := by
  simp [MakeCert, certmaker.Marshal]

/-- With a nil field, `MakeCert` returns nil. -/
theorem MakeCert_nil (epoch : Nat) (s es esh : Bytes)
    (h : s = none ∨ es = none ∨ esh = none) : MakeCert epoch s es esh = .ret none := by
  simp [MakeCert, h]

/-- The function `MakeCert` returns: its panic is not reachable. -/
theorem MakeCert_returns (epoch : Nat) (s es esh : Bytes) :
    ∃ cert, MakeCert epoch s es esh = .ret cert := by
  by_cases h : s = none ∨ es = none ∨ esh = none
  · exact ⟨none, MakeCert_nil epoch s es esh h⟩
  · simp only [MakeCert, if_neg h, certmaker.Marshal]
    exact ⟨_, rfl⟩

theorem marshalSequence_ne_nil (body : List Byte) : asn1.marshalSequence body ≠ [] := by
  simp [asn1.marshalSequence, asn1.appendTagAndLength, asn1.TagSequence]

/-- Reading back a certificate made by `MakeCert`, possibly followed by other
bytes: the three byte strings come back, and the epoch capped at `2 ^ 63 - 1`. -/
theorem ParseCert_MakeCert_append (epoch : Nat) (s es esh t : List Byte)
    (hepoch : epoch < 2 ^ 64)
    (hsize : (certmaker.body ⟨(strconv.Atoi (strconv.FormatUint epoch)).1,
      some s, some es, some esh⟩).length < 2 ^ 31) :
    ParseCert (some (asn1.marshalSequence (certmaker.body
        ⟨(strconv.Atoi (strconv.FormatUint epoch)).1, some s, some es, some esh⟩) ++ t))
      = .ret ⟨min epoch (2 ^ 63 - 1), some s, some es, some esh, none⟩ := by
  rw [intNum_eq epoch hepoch] at hsize ⊢
  have hm : min epoch (2 ^ 63 - 1) < 2 ^ 63 := by
    have := Nat.min_le_right epoch (2 ^ 63 - 1)
    omega
  have h := Unmarshal_Marshal (min epoch (2 ^ 63 - 1)) (some s) (some es) (some esh) t hm hsize
  simp only [certmaker.Marshal, Bytes.content, Option.getD_some] at h
  simp only [ParseCert, h]
  simp
  omega

end sgx

namespace asn1

/-- Length octets for a length from `2 ^ 31` on are rejected by `parseLength`. -/
theorem parseLength_too_large (L : Nat) (rest : List Byte) (h1 : 2 ^ 31 ≤ L) (h2 : L < 2 ^ 32) :
    parseLength (byte (128 + 4) :: (appendLength 4 L ++ rest))
      = .error (StructuralError "length too large") := by
  simp only [appendLength, parseLength, parseLengthLoop, byte_val, List.cons_append,
    List.nil_append]
  iterate 8 rw [if_neg (by omega)]
  rw [if_pos (by omega)]

/-- A SEQUENCE whose content takes `2 ^ 31` bytes or more is not read back. -/
theorem parseFieldBody_too_large (body t : List Byte) (h1 : 2 ^ 31 ≤ body.length)
    (h2 : body.length < 2 ^ 32) :
    parseFieldBody TagSequence true (marshalSequence body ++ t)
      = .error (StructuralError "length too large") := by
  have a1 : body.length > 255 := by omega
  have a2 : body.length / 256 > 255 := by omega
  have a3 : body.length / 256 / 256 > 255 := by omega
  have a4 : ¬ body.length / 256 / 256 / 256 > 255 := by omega
  have hll : lengthLength body.length = 4 := by
    simp [lengthLength, lengthLengthLoop, a1, a2, a3, a4]
  have hge : body.length ≥ 128 := by omega
  have hp := parseLength_too_large body.length (body ++ t) h1 h2
  simp only [marshalSequence, appendTagAndLength, TagSequence, ClassUniversal, hll, if_pos hge,
    if_neg (show ¬ (16 ≥ 31) by decide),
    List.cons_append, List.nil_append, List.append_assoc, parseFieldBody]
  rw [if_neg (by simp), parseTagAndLength_cons _ _ (by decide), hp]

end asn1

namespace sgx

/-- A certificate whose encoded fields take `2 ^ 31` bytes or more is not
read back: `ParseCert` panics on the length octets. -/
theorem ParseCert_too_large (body t : List Byte) (h1 : 2 ^ 31 ≤ body.length)
    (h2 : body.length < 2 ^ 32) :
    ParseCert (some (asn1.marshalSequence body ++ t))
      = .panic "asn1: structure error: length too large" := by
  have h := asn1.parseFieldBody_too_large body t h1 h2
  simp only [ParseCert, certparser.Unmarshal, Bytes.content, Option.getD_some, h]
  simp [asn1.StructuralError]

/-- The length limit of the decoder is reached by `MakeCert`: the certificate
made from a signature of `2 ^ 31` bytes is not read back, `ParseCert` panics. -/
theorem ParseCert_MakeCert_of_large_signature (sig : List Byte) (hsig : sig.length = 2 ^ 31) :
    ∃ cert : List Byte,
      MakeCert 0 (some sig) (some []) (some []) = .ret (some cert) ∧
      ParseCert (some cert) = .panic "asn1: structure error: length too large" := by
  refine ⟨_, MakeCert_some 0 _ _ _, ?_⟩
  have hE : (strconv.Atoi (strconv.FormatUint 0)).1 = 0 := by decide
  have hlen : (certmaker.body ⟨0, some sig, some [], some []⟩).length = 2147483661 := by
    have h1 : (asn1.marshalInt 0).length = 3 := by decide
    have h2 : (asn1.appendTagAndLength ⟨asn1.ClassUniversal, asn1.TagOctetString,
        2 ^ 31, false⟩).length = 6 := by decide
    have h3 : (asn1.marshalBytes (some [])).length = 2 := by decide
    rw [certmaker.body, List.length_append, List.length_append, List.length_append, h1, h3,
      asn1.marshalBytes, Bytes.content, Option.getD_some, List.length_append, hsig, h2]
    norm_num
  rw [hE]
  have h := ParseCert_too_large (certmaker.body ⟨0, some sig, some [], some []⟩) []
    (by rw [hlen]; decide) (by rw [hlen]; decide)
  rw [List.append_nil] at h
  exact h

/-- A signature of `2 ^ 31` bytes exists, so the limit above is reached. -/
theorem ParseCert_MakeCert_too_large :
    ∃ sig : List Byte, sig.length = 2 ^ 31 ∧ ∃ cert : List Byte,
      MakeCert 0 (some sig) (some []) (some []) = .ret (some cert) ∧
      ParseCert (some cert) = .panic "asn1: structure error: length too large" :=
  ⟨List.replicate (2 ^ 31) 0, List.length_replicate _ _,
    ParseCert_MakeCert_of_large_signature _ (List.length_replicate _ _)⟩

end sgx

namespace binary

/-- The 8 bytes written for a `uint64` are read back as that value, and the
bytes after them are left in the buffer. -/
theorem ReadUint64_WriteUint64 (v : Nat) (rest : List Byte) (h : v < 2 ^ 64) :
    ReadUint64 (WriteUint64 v ++ rest) = (v, rest, none) := by
  have hlen : (WriteUint64 v).length = 8 := asn1.appendLength_length 8 v
  have hval : Uint64 (WriteUint64 v) = v := by
    simp only [Uint64, WriteUint64, asn1.appendLength, List.foldl, asn1.byte_val]
    norm_num
    omega
  have h0 : ¬ (WriteUint64 v ++ rest).length = 0 := by
    rw [List.length_append, hlen]; omega
  have h8 : ¬ (WriteUint64 v ++ rest).length < 8 := by
    rw [List.length_append, hlen]; omega
  rw [ReadUint64, if_neg h0, if_neg h8, List.take_left' hlen, List.drop_left' hlen, hval]

end binary

namespace sgx

/-- When `ParseCert` returns, its error is nil. -/
theorem ParseCert_err_none (cert : Bytes) (p : ParsedCert) (h : ParseCert cert = .ret p) :
    p.err = none := by
  simp only [ParseCert] at h
  split at h
  · cases h
  · rename_i hn
    simp only [ne_eq, not_or, not_not] at hn
    cases h
    exact hn.1

/-- The function `SharesSecretHashToBytes` returns a non-nil byte string and a
nil error: its panic is not reachable. -/
theorem SharesSecretHashToBytes_returns (share : Bytes) (secretHash : Digest) :
    SharesSecretHashToBytes share secretHash =
      .ret (some (asn1.marshalSequence
        (asn1.marshalBytes share ++ asn1.marshalBytes (some secretHash.val))), none) := by
  simp [SharesSecretHashToBytes, verifier.Marshal]

/-- The result of `VerifyUI` on a UI whose certificate decodes: what the verify
operation of the enclave says about the digest of the message and the three
decoded byte strings, an `invalid UI` error when it fails and the packaged
shares and secret hash when it succeeds. -/
theorem VerifyUI_of_ParseCert {σ κ : Type} (u : USIG σ κ) (message : Bytes) (ui : usig.UI)
    (usigID : Bytes) (w : World σ) (p : ParsedCert) (h : ParseCert ui.Cert = .ret p) :
    (u.VerifyUI message (some ui) usigID w).1 =
      match (u.USIGEnclave.VerifyUI (messageDigest message) p.signature p.encryptedShares
          p.encryptedSecretH w.enclave).1 with
      | (_, _, some e) => .ret (none, some ("invalid UI: " ++ e))
      | (shares, secretHash, none) => SharesSecretHashToBytes shares secretHash := by
  have herr := ParseCert_err_none ui.Cert p h
  obtain ⟨epoch, sig, es, esh, err⟩ := p
  simp only at herr
  subst herr
  rcases hv : u.USIGEnclave.VerifyUI (messageDigest message) sig es esh w.enclave with
    ⟨⟨shares, secretHash, err⟩, s⟩
  have e2 : ∀ (c d : Prop) [Decidable c] [Decidable d] (e f : Event),
      (if d then (if c then w.emit e else w).emit f else (if c then w.emit e else w)).enclave
        = w.enclave := by
    intro c d _ _ e f; split <;> split <;> rfl
  simp only [USIG.VerifyUI, h, e2, hv, SharesSecretHashToBytes_returns]
  cases err with
  | none => simp
  | some e => simp

end sgx

namespace sgx

/-- A successful call of `CreateUI` returns the counter that the certify
operation of the enclave issued, and leaves the enclave in the state after
that operation. -/
theorem CreateUI_created {σ κ : Type} (u : USIG σ κ) (message : Bytes) (w : World σ)
    (ui : usig.UI) (h : (u.CreateUI message w).1 = created ui) :
    (u.USIGEnclave.CreateUI (messageDigest message) w.enclave).1.err = none ∧
      ui.Counter = (u.USIGEnclave.CreateUI (messageDigest message) w.enclave).1.counter ∧
      (u.CreateUI message w).2.enclave
        = (u.USIGEnclave.CreateUI (messageDigest message) w.enclave).2 := by
  rcases hc : u.USIGEnclave.CreateUI (messageDigest message) w.enclave with
    ⟨⟨counter, sig, es, esh, err⟩, s⟩
  obtain ⟨cert, hcert⟩ := MakeCert_returns u.USIGEnclave.epoch sig es esh
  simp only [USIG.CreateUI, hc, hcert, created] at h ⊢
  cases err with
  | some e => simp at h
  | none =>
    simp at h
    simp [← h]

/-- Along successive successful calls of `CreateUI`, every counter is above
the counter of the enclave before the first call, and the counters increase. -/
theorem CreateUIs_counters {σ κ : Type} (u : USIG σ κ) (ctr : σ → Nat)
    (hmono : ∀ (d : Digest) (s : σ), (u.USIGEnclave.CreateUI d s).1.err = none →
      ctr s < (u.USIGEnclave.CreateUI d s).1.counter ∧
      (u.USIGEnclave.CreateUI d s).1.counter ≤ ctr (u.USIGEnclave.CreateUI d s).2)
    (messages : List Bytes) (w : World σ) (uis : List usig.UI)
    (hsucc : (u.CreateUIs messages w).1 = uis.map created) :
    (∀ c ∈ uis.map (fun ui => ui.Counter), ctr w.enclave < c) ∧
      (uis.map (fun ui => ui.Counter)).Pairwise (fun a b => a < b) := by
  induction messages generalizing w uis with
  | nil =>
    cases uis with
    | nil => simp
    | cons a t => simp [USIG.CreateUIs] at hsucc
  | cons m ms ih =>
    cases uis with
    | nil => simp [USIG.CreateUIs] at hsucc
    | cons a t =>
      simp only [USIG.CreateUIs, List.map_cons, List.cons.injEq] at hsucc
      obtain ⟨h1, h2⟩ := hsucc
      obtain ⟨herr, hctr, hst⟩ := CreateUI_created u m w a h1
      obtain ⟨hlo, hhi⟩ := hmono (messageDigest m) w.enclave herr
      obtain ⟨ih1, ih2⟩ := ih (u.CreateUI m w).2 t h2
      rw [hst] at ih1
      constructor
      · intro c hc
        simp only [List.map_cons, List.mem_cons] at hc
        rcases hc with hc | hc
        · omega
        · have := ih1 c hc
          omega
      · simp only [List.map_cons, List.pairwise_cons]
        refine ⟨?_, ih2⟩
        intro c hc
        have := ih1 c hc
        omega

end sgx

/-! ## Lemmas on `encoding/asn1`: bytes after an element are not read -/

namespace asn1

theorem parseBase128IntLoop_suffix (bytes t : List Byte) (shifted ret64 r : Nat)
    (rest : List Byte) (h : parseBase128IntLoop shifted ret64 bytes = .ok (r, rest)) :
    parseBase128IntLoop shifted ret64 (bytes ++ t) = .ok (r, rest ++ t) := by
  induction bytes generalizing shifted ret64 with
  | nil => simp [parseBase128IntLoop] at h
  | cons b bs ih =>
    simp only [parseBase128IntLoop, List.cons_append] at h ⊢
    split at h
    · cases h
    · rw [if_neg (by assumption)]
      split at h
      · cases h
      · rw [if_neg (by assumption)]
        split at h
        · rw [if_pos (by assumption)]
          split at h
          · cases h
          · rw [if_neg (by assumption)]
            cases h
            rfl
        · rw [if_neg (by assumption)]
          exact ih _ _ h

theorem parseLengthLoop_suffix (n length L : Nat) (bytes rest t : List Byte)
    (h : parseLengthLoop n length bytes = .ok (L, rest)) :
    parseLengthLoop n length (bytes ++ t) = .ok (L, rest ++ t) := by
  induction n generalizing length bytes with
  | zero =>
    simp only [parseLengthLoop] at h ⊢
    cases h
    rfl
  | succ k ih =>
    cases bytes with
    | nil => simp [parseLengthLoop] at h
    | cons b bs =>
      simp only [parseLengthLoop, List.cons_append] at h ⊢
      split at h
      · cases h
      · rw [if_neg (by assumption)]
        split at h
        · cases h
        · rw [if_neg (by assumption)]
          exact ih _ _ h

theorem parseLength_suffix (bytes rest t : List Byte) (L : Nat)
    (h : parseLength bytes = .ok (L, rest)) :
    parseLength (bytes ++ t) = .ok (L, rest ++ t) := by
  cases bytes with
  | nil => simp [parseLength] at h
  | cons b bs =>
    simp only [parseLength, List.cons_append] at h ⊢
    split at h
    · rw [if_pos (by assumption)]
      cases h
      rfl
    · rw [if_neg (by assumption)]
      split at h
      · cases h
      · rw [if_neg (by assumption)]
        split at h
        · cases h
        · rename_i length rest1 heq
          rw [parseLengthLoop_suffix _ _ _ _ _ t heq]
          simp only []
          split at h
          · cases h
          · rw [if_neg (by assumption)]
            cases h
            rfl

/-- A header that parses is parsed the same when more bytes follow. -/
theorem parseTagAndLength_suffix (bytes rest t : List Byte) (hdr : tagAndLength)
    (h : parseTagAndLength bytes = .ok (hdr, rest)) :
    parseTagAndLength (bytes ++ t) = .ok (hdr, rest ++ t) := by
  cases bytes with
  | nil => simp [parseTagAndLength] at h
  | cons b bs =>
    simp only [parseTagAndLength, List.cons_append] at h ⊢
    by_cases h31 : b.val % 32 = 31
    · simp only [if_pos h31] at h ⊢
      rcases hb : parseBase128Int bs with e | ⟨tg, r1⟩
      · simp [hb] at h
      · have hb2 : parseBase128Int (bs ++ t) = .ok (tg, r1 ++ t) :=
          parseBase128IntLoop_suffix bs t 0 0 tg r1 hb
        simp only [hb, hb2] at h ⊢
        by_cases hlt : tg < 31
        · simp [hlt] at h
        · simp only [if_neg hlt] at h ⊢
          rcases hl : parseLength r1 with e | ⟨L, r2⟩
          · simp [hl] at h
          · simp only [hl, parseLength_suffix r1 r2 t L hl] at h ⊢
            cases h
            rfl
    · simp only [if_neg h31] at h ⊢
      rcases hl : parseLength bs with e | ⟨L, r2⟩
      · simp [hl] at h
      · simp only [hl, parseLength_suffix bs r2 t L hl] at h ⊢
        cases h
        rfl

/-- An element that `parseFieldBody` splits off is split off the same when more
bytes follow; they are added to the bytes after the element. -/
theorem parseFieldBody_suffix (tag : Nat) (c : Bool) (bytes inner rest t : List Byte)
    (h : parseFieldBody tag c bytes = .ok (inner, rest)) :
    parseFieldBody tag c (bytes ++ t) = .ok (inner, rest ++ t) := by
  by_cases hnil : bytes = []
  · simp [parseFieldBody, hnil] at h
  · have hnil2 : ¬ bytes ++ t = [] := by simp [hnil]
    simp only [parseFieldBody, if_neg hnil, if_neg hnil2] at h ⊢
    rcases hp : parseTagAndLength bytes with e | ⟨hdr, r⟩
    · simp [hp] at h
    · simp only [hp, parseTagAndLength_suffix bytes r t hdr hp] at h ⊢
      split at h
      · cases h
      · rw [if_neg (by assumption)]
        split at h
        · cases h
        · rename_i hlen
          have hle : hdr.length ≤ r.length := by omega
          rw [if_neg (by rw [List.length_append]; omega)]
          cases h
          rw [List.take_append_of_le_length hle, List.drop_append_of_le_length hle]

end asn1

namespace sgx

/-- What `asn1.Unmarshal` decodes is decoded the same when more bytes follow
the certificate; they are added to the rest. -/
theorem Unmarshal_suffix (c t rest : List Byte) (v : certparser)
    (h : certparser.Unmarshal (some c) = ((some rest, none), v)) :
    certparser.Unmarshal (some (c ++ t)) = ((some (rest ++ t), none), v) := by
  simp only [certparser.Unmarshal, Bytes.content, Option.getD_some] at h ⊢
  rcases hb : asn1.parseFieldBody asn1.TagSequence true c with e | ⟨inner, r⟩
  · simp [hb] at h
  · rw [asn1.parseFieldBody_suffix _ _ c inner r t hb]
    rw [hb] at h
    simp only [] at h ⊢
    split at h
    · simp at h
    · split at h
      · simp at h
      · split at h
        · simp at h
        · split at h
          · simp at h
          · simp only [Prod.mk.injEq, Option.some.injEq, and_true] at h
            obtain ⟨h1, h2⟩ := h
            subst h1
            rw [← h2]

/-- The function `ParseCert` returns the same when bytes follow a certificate
that it decodes. -/
theorem ParseCert_suffix (c t : List Byte) (p : ParsedCert) (h : ParseCert (some c) = .ret p) :
    ParseCert (some (c ++ t)) = .ret p := by
  rcases hu : certparser.Unmarshal (some c) with ⟨⟨ret, err⟩, v⟩
  simp only [ParseCert, hu] at h
  split at h
  · cases h
  · rename_i hn
    simp only [ne_eq, not_or, not_not] at hn
    obtain ⟨he, hr⟩ := hn
    subst he
    obtain ⟨rest, rfl⟩ := Option.ne_none_iff_exists'.mp hr
    have hs := Unmarshal_suffix c t rest v hu
    simp only [ParseCert, hs]
    simpa using h

end sgx

/-! ## Lemmas on `encoding/asn1`: an element determines its content -/

namespace asn1

theorem lengthLengthLoop_mono (fuel a b : Nat) (h : a ≤ b) :
    lengthLengthLoop fuel a ≤ lengthLengthLoop fuel b := by
  induction fuel generalizing a b with
  | zero => simp [lengthLengthLoop]
  | succ f ih =>
    simp only [lengthLengthLoop]
    by_cases ha : a > 255
    · have hb : b > 255 := by omega
      rw [if_pos ha, if_pos hb]
      have := ih (a / 256) (b / 256) (Nat.div_le_div_right h)
      omega
    · rw [if_neg ha]
      split <;> omega

/-- The header of a longer content is not shorter. -/
theorem appendTagAndLength_length_mono (cls tag : Nat) (c : Bool) (a b : Nat) (h : a ≤ b) :
    (appendTagAndLength ⟨cls, tag, a, c⟩).length ≤ (appendTagAndLength ⟨cls, tag, b, c⟩).length := by
  have hm := lengthLengthLoop_mono 8 a b h
  simp only [appendTagAndLength, List.length_append, lengthLength] at hm ⊢
  apply Nat.add_le_add_left
  by_cases ha : a ≥ 128
  · have hb : b ≥ 128 := by omega
    rw [if_pos ha, if_pos hb]
    simp only [List.length_cons, appendLength_length]
    omega
  · rw [if_neg ha]
    split
    · simp only [List.length_cons, List.length_nil, appendLength_length]
      omega
    · simp

/-- Two elements with the same class and tag that are equal as byte strings
have the same content. -/
theorem element_injective (cls tag : Nat) (c : Bool) (x y : List Byte)
    (h : appendTagAndLength ⟨cls, tag, x.length, c⟩ ++ x
      = appendTagAndLength ⟨cls, tag, y.length, c⟩ ++ y) : x = y := by
  have hlen := congrArg List.length h
  simp only [List.length_append] at hlen
  have hxy : x.length = y.length := by
    rcases Nat.lt_trichotomy x.length y.length with hlt | heq | hgt
    · have := appendTagAndLength_length_mono cls tag c x.length y.length (by omega)
      omega
    · exact heq
    · have := appendTagAndLength_length_mono cls tag c y.length x.length (by omega)
      omega
  rw [hxy] at h
  exact List.append_cancel_left h

theorem marshalBytes_injective (a b : Bytes) (h : marshalBytes a = marshalBytes b) :
    a.content = b.content :=
  element_injective ClassUniversal TagOctetString false a.content b.content h

theorem marshalSequence_injective (x y : List Byte)
    (h : marshalSequence x = marshalSequence y) : x = y :=
  element_injective ClassUniversal TagSequence true x y h

end asn1

namespace sgx

/-- The output of `SharesSecretHashToBytes` determines the bytes of the shares
and the secret hash. -/
theorem SharesSecretHashToBytes_injective (s1 s2 : Bytes) (h1 h2 : Digest)
    (h : SharesSecretHashToBytes s1 h1 = SharesSecretHashToBytes s2 h2) :
    s1.content = s2.content ∧ h1 = h2 := by
  rw [SharesSecretHashToBytes_returns, SharesSecretHashToBytes_returns] at h
  simp only [Outcome.ret.injEq, Prod.mk.injEq, Option.some.injEq, and_true] at h
  have hb := asn1.marshalSequence_injective _ _ h
  have hl : (asn1.marshalBytes (some h1.val)).length = (asn1.marshalBytes (some h2.val)).length := by
    simp only [asn1.marshalBytes, Bytes.content, Option.getD_some, h1.property, h2.property,
      List.length_append]
  obtain ⟨ha, hd⟩ := List.append_inj' hb hl
  have hv := asn1.marshalBytes_injective _ _ hd
  simp only [Bytes.content, Option.getD_some] at hv
  exact ⟨asn1.marshalBytes_injective _ _ ha, Subtype.ext hv⟩

end sgx

namespace binary

/-- The 8 bytes written for a `uint64` have that value. -/
theorem Uint64_WriteUint64 (v : Nat) (h : v < 2 ^ 64) : Uint64 (WriteUint64 v) = v := by
  have hr := ReadUint64_WriteUint64 v [] h
  have hlen : (WriteUint64 v).length = 8 := asn1.appendLength_length 8 v
  rw [List.append_nil] at hr
  simp only [ReadUint64, hlen] at hr
  simp at hr
  exact hr.1

end binary

/-! ## Further lemmas on the wrapper -/

namespace sgx

set_option maxRecDepth 100000

/-- The identity of epoch 3 and key `[1, 2, 3]` in the raw key format, and the
error for a key that does not serialize. -/
theorem MakeID_known_answers :
    MakeID rawPKIX 3 [1, 2, 3] = (some [0, 0, 0, 0, 0, 0, 0, 3, 1, 2, 3], none) ∧
    MakeID rawPKIX (2 ^ 64 - 2) [7] = (some [255, 255, 255, 255, 255, 255, 255, 254, 7], none) ∧
    MakeID rawPKIX 3 [] =
      (none, some "failed to serialize public key: x509: unsupported public key type") := by
  refine ⟨by decide, by decide, by decide⟩

/-- The three cases of `ParseID`: a short input, an input whose key does not
parse, and an identity. -/
theorem ParseID_known_answers :
    ParseID rawPKIX (some [0, 0, 3]) =
      (0, none, some "failed to extract epoch from USIG ID: unexpected EOF") ∧
    ParseID rawPKIX none = (0, none, some "failed to extract epoch from USIG ID: EOF") ∧
    ParseID rawPKIX (some [0, 0, 0, 0, 0, 0, 0, 3]) =
      (0, none, some "failed to parse public key: asn1: syntax error: sequence truncated") ∧
    ParseID rawPKIX (some [0, 0, 0, 0, 0, 0, 1, 3, 1, 2, 3]) = (259, some [1, 2, 3], none) := by
  refine ⟨by decide, by decide, by decide, by decide⟩

/-- A certificate round trip with its conditions: epoch below `2 ^ 63` and
encoded fields of fewer than `2 ^ 31` bytes. -/
theorem ParseCert_MakeCert_roundtrip (epoch : Nat) (s es esh : List Byte)
    (hepoch : epoch < 2 ^ 63)
    (hsize : (certmaker.body ⟨(epoch : Int), some s, some es, some esh⟩).length < 2 ^ 31) :
    ∃ cert : List Byte, MakeCert epoch (some s) (some es) (some esh) = .ret (some cert) ∧
      ParseCert (some cert) = .ret ⟨epoch, some s, some es, some esh, none⟩ := by
  have hi := intNum_eq epoch (by omega)
  rw [Nat.min_eq_left (by omega)] at hi
  rw [← hi] at hsize
  refine ⟨_, MakeCert_some epoch s es esh, ?_⟩
  have h := ParseCert_MakeCert_append epoch s es esh [] (by omega) hsize
  rw [List.append_nil, Nat.min_eq_left (by omega)] at h
  exact h

/-- A certificate that `ParseCert` decodes is not nil. -/
theorem ParseCert_ret_ne_none (cert : Bytes) (p : ParsedCert) (h : ParseCert cert = .ret p) :
    cert ≠ none := by
  intro hn
  have hp : ParseCert none = .panic "asn1: syntax error: sequence truncated" := by decide
  rw [hn, hp] at h
  cases h

/-- The error text for a certificate that does not decode is not the text of
an invalid UI error. -/
theorem parse_error_ne_invalid_UI (e1 e2 : String) :
    "failed to parse UI cert: " ++ e1 ≠ "invalid UI: " ++ e2 := by
  intro h
  have hd := congrArg String.data h
  simp only [String.data_append] at hd
  have hh := congrArg List.head? hd
  simp at hh

end sgx

/-! ## The claims -/

namespace sgx

set_option maxRecDepth 100000

/-- C1 (counterexample). The round trip fails at epoch `2 ^ 63`: `MakeCert`
returns a certificate and `ParseCert` of it returns epoch `2 ^ 63 - 1`.  It
also fails for a signature of `2 ^ 31` bytes: `ParseCert` panics on the
certificate that `MakeCert` returns. -/
theorem C1_roundtrip_fails :
    (MakeCert (2 ^ 63) (some [170]) (some [187]) (some [204]) =
        .ret (some [48, 19, 2, 8, 127, 255, 255, 255, 255, 255, 255, 255,
          4, 1, 170, 4, 1, 187, 4, 1, 204]) ∧
      ParseCert (some [48, 19, 2, 8, 127, 255, 255, 255, 255, 255, 255, 255,
          4, 1, 170, 4, 1, 187, 4, 1, 204]) =
        .ret ⟨2 ^ 63 - 1, some [170], some [187], some [204], none⟩ ∧
      (2 ^ 63 - 1 : Nat) ≠ 2 ^ 63) ∧
    (∃ sig : List Byte, sig.length = 2 ^ 31 ∧ ∃ cert : List Byte,
      MakeCert 0 (some sig) (some []) (some []) = .ret (some cert) ∧
      ParseCert (some cert) = .panic "asn1: structure error: length too large") :=
  ⟨⟨by decide, by decide, by decide⟩, ParseCert_MakeCert_too_large⟩

/-- C1 (amended). Certificate round trip: for every epoch below `2 ^ 63` and
all non-nil signature, encryptedShares and encryptedSecretH whose encoded
fields together take fewer than `2 ^ 31` bytes, `MakeCert` returns a
certificate and `ParseCert` of it returns, with a nil error, exactly the epoch
and the three byte strings. -/
theorem C1_ParseCert_MakeCert (epoch : Nat)
    (signature encryptedShares encryptedSecretH : List Byte) (hepoch : epoch < 2 ^ 63)
    (hsize : (certmaker.body ⟨(epoch : Int), some signature, some encryptedShares,
      some encryptedSecretH⟩).length < 2 ^ 31) :
    ∃ cert : List Byte,
      MakeCert epoch (some signature) (some encryptedShares) (some encryptedSecretH)
        = .ret (some cert) ∧
      ParseCert (some cert)
        = .ret ⟨epoch, some signature, some encryptedShares, some encryptedSecretH, none⟩ := by
  have hi := intNum_eq epoch (by omega)
  rw [Nat.min_eq_left (by omega)] at hi
  rw [← hi] at hsize
  refine ⟨_, MakeCert_some epoch signature encryptedShares encryptedSecretH, ?_⟩
  have h := ParseCert_MakeCert_append epoch signature encryptedShares encryptedSecretH []
    (by omega) hsize
  rw [List.append_nil, Nat.min_eq_left (by omega)] at h
  exact h

/-- C1 (witness). The amended round trip at epoch 3 with one-byte fields. -/
theorem C1_ParseCert_MakeCert_witness :
    ∃ cert : List Byte,
      MakeCert 3 (some [170]) (some [187]) (some [204]) = .ret (some cert) ∧
      ParseCert (some cert) = .ret ⟨3, some [170], some [187], some [204], none⟩ :=
  C1_ParseCert_MakeCert 3 [170] [187] [204] (by decide) (by decide)

/-- C2 (code at the failing inputs). Whenever `asn1.Unmarshal` reports an
error for the bytes, `ParseCert` panics with that error instead of returning
it. -/
theorem C2_ParseCert_panics_on_decoding_error (cert : Bytes) (e : String)
    (h : (certparser.Unmarshal cert).1.2 = some e) : ParseCert cert = .panic e := by
  simp [ParseCert, h]

/-- C2 (witness). The empty, a truncated and a wrongly typed certificate make
`ParseCert` panic. -/
theorem C2_ParseCert_panics_witness :
    ParseCert (some []) = .panic "asn1: syntax error: sequence truncated" ∧
    ParseCert (some [48, 12, 2, 1, 3, 4, 1, 170]) = .panic "asn1: syntax error: data truncated" ∧
    ParseCert (some [48, 3, 4, 1, 3]) = .panic "asn1: structure error: tags do not match" :=
  ⟨C2_ParseCert_panics_on_decoding_error (some []) _ (by decide),
   C2_ParseCert_panics_on_decoding_error (some [48, 12, 2, 1, 3, 4, 1, 170]) _ (by decide),
   C2_ParseCert_panics_on_decoding_error (some [48, 3, 4, 1, 3]) _ (by decide)⟩

/-- C3 (code at the failing inputs). A missing input is logged, not rejected:
a nil `ui` makes `VerifyUI` panic at `ui.Cert`, a nil certificate makes it panic
in `ParseCert`, and with a nil `usigID` or a nil message it goes on to call
the verify operation of the enclave and can succeed. -/
theorem C3_VerifyUI_does_not_reject_missing_input :
    (∀ (σ κ : Type) (u : USIG σ κ) (message usigID : Bytes) (w : World σ),
      (u.VerifyUI message none usigID w).1 =
        .panic "runtime error: invalid memory address or nil pointer dereference") ∧
    (∀ (σ κ : Type) (u : USIG σ κ) (message usigID : Bytes) (w : World σ) (counter : Nat),
      (u.VerifyUI message (some ⟨counter, none⟩) usigID w).1 =
        .panic "asn1: syntax error: sequence truncated") ∧
    counterUSIG.VerifyUI order42 (some ⟨1, some cert42⟩) none world0 =
      (.ret (some verified42, none),
        ⟨0, [Event.log "Error in SGX! ui is nil",
          Event.verify (messageDigest order42) (some (messageDigest order42).val)
            (some [16, 17]) (some [32])]⟩) ∧
    (∃ bb : List Byte, counterUSIG.VerifyUI none
        (some ⟨1, some ([48, 44, 2, 1, 3, 4, 32] ++ (messageDigest none).val
          ++ [4, 2, 16, 17, 4, 1, 32])⟩) (some [1]) world0 =
      (.ret (some bb, none),
        ⟨0, [Event.log "Error in SGX! ui is nil",
          Event.verify (messageDigest none) (some (messageDigest none).val)
            (some [16, 17]) (some [32])]⟩)) := by
  refine ⟨?_, ?_, by decide, ⟨[48, 37, 4, 1, 119, 4, 32] ++ (messageDigest none).val, by decide⟩⟩
  · intro σ κ u message usigID w
    simp [USIG.VerifyUI]
  · intro σ κ u message usigID w counter
    have h : ParseCert none = .panic "asn1: syntax error: sequence truncated" := by decide
    simp [USIG.VerifyUI, h]

/-- C4 (code at the failing inputs). For every epoch from `2 ^ 63` on,
`strconv.Atoi` reports a range error that `MakeCert` discards, and `MakeCert`
returns the certificate of epoch `2 ^ 63 - 1`. -/
theorem C4_MakeCert_replaces_large_epoch (epoch : Nat) (s es esh : Bytes)
    (hlo : 2 ^ 63 ≤ epoch) (hhi : epoch < 2 ^ 64) :
    strconv.Atoi (strconv.FormatUint epoch)
        = ((2 ^ 63 - 1 : Int), some strconv.NumError.ErrRange) ∧
      MakeCert epoch s es esh = MakeCert (2 ^ 63 - 1) s es esh := by
  have h1 := strconv.Atoi_FormatUint epoch hhi
  rw [if_neg (by omega)] at h1
  have h2 := intNum_eq (2 ^ 63 - 1) (by norm_num)
  refine ⟨h1, ?_⟩
  simp only [MakeCert, h1, h2]
  norm_num

/-- C4 (witness). Epochs `2 ^ 63` and `2 ^ 64 - 1` give the certificate of
epoch `2 ^ 63 - 1`, which `ParseCert` reads as `2 ^ 63 - 1`. -/
theorem C4_MakeCert_replaces_large_epoch_witness :
    (strconv.Atoi (strconv.FormatUint (2 ^ 63))
        = ((2 ^ 63 - 1 : Int), some strconv.NumError.ErrRange) ∧
      MakeCert (2 ^ 63) (some [170]) (some [187]) (some [204])
        = MakeCert (2 ^ 63 - 1) (some [170]) (some [187]) (some [204])) ∧
    MakeCert (2 ^ 63 - 1) (some [170]) (some [187]) (some [204]) =
      .ret (some [48, 19, 2, 8, 127, 255, 255, 255, 255, 255, 255, 255,
        4, 1, 170, 4, 1, 187, 4, 1, 204]) :=
  ⟨C4_MakeCert_replaces_large_epoch (2 ^ 63) (some [170]) (some [187]) (some [204])
    (by decide) (by decide), by decide⟩

/-- C5 (counterexample). `VerifyUI` succeeds on a UI of the counter enclave and
succeeds, with the same bytes, when the counter 1 is replaced by 2. -/
theorem C5_counter_tampering_not_detected :
    (counterUSIG.VerifyUI order42 (some ⟨1, some cert42⟩) (some [1]) world0).1
        = .ret (some verified42, none) ∧
      (counterUSIG.VerifyUI order42 (some ⟨2, some cert42⟩) (some [1]) world0).1
        = .ret (some verified42, none) := by
  refine ⟨by decide, by decide⟩

/-- C5 (amended). `VerifyUI` does not read `ui.Counter`: for every message, UI
and identity, replacing the counter by any value leaves the result of
`VerifyUI`, its log lines and its call into the enclave unchanged; so after a
success it succeeds again. -/
theorem C5_VerifyUI_ignores_counter {σ κ : Type} (u : USIG σ κ) (message : Bytes)
    (ui : usig.UI) (usigID : Bytes) (w : World σ) (counter : Nat) :
    u.VerifyUI message (some ⟨counter, ui.Cert⟩) usigID w
      = u.VerifyUI message (some ui) usigID w := by
  simp [USIG.VerifyUI]

/-- C6 (counterexample). `VerifyUI` succeeds on a UI of the counter enclave;
with the lowest bit of the epoch byte of its certificate flipped it succeeds
again with the same bytes, and with the lowest bit of the first byte flipped it
panics. -/
theorem C6_cert_tampering_not_detected :
    (counterUSIG.VerifyUI order42 (some ⟨1, some cert42⟩) (some [1]) world0).1
        = .ret (some verified42, none) ∧
      flipBit cert42 4 0 ≠ cert42 ∧
      (counterUSIG.VerifyUI order42 (some ⟨1, some (flipBit cert42 4 0)⟩) (some [1]) world0).1
        = .ret (some verified42, none) ∧
      (counterUSIG.VerifyUI order42 (some ⟨1, some (flipBit cert42 0 0)⟩) (some [1]) world0).1
        = .panic "asn1: structure error: tags do not match" := by
  refine ⟨by decide, by decide, by decide, by decide⟩

/-- C6 (amended). For every message, UI and identity on which `VerifyUI`
succeeds, and every flip of one bit of `ui.Cert` after which the certificate
still decodes: `VerifyUI` returns an `invalid UI` error carrying the error of
the enclave whenever the verify operation of the enclave rejects the decoded
signature, encryptedShares and encryptedSecretH; and when the flip leaves these
three fields as they were (a flip in the epoch), `VerifyUI` succeeds with the
same bytes. -/
theorem C6_VerifyUI_flipped_cert {σ κ : Type} (u : USIG σ κ) (message : Bytes) (ui : usig.UI)
    (usigID : Bytes) (w : World σ) (i k : Nat) (bb : Bytes) (p1 : ParsedCert)
    (hok : (u.VerifyUI message (some ui) usigID w).1 = .ret (bb, none))
    (hdec : ParseCert (some (flipBit ui.Cert.content i k)) = .ret p1) :
    (∀ e : String,
      (u.USIGEnclave.VerifyUI (messageDigest message) p1.signature p1.encryptedShares
        p1.encryptedSecretH w.enclave).1.2.2 = some e →
      (u.VerifyUI message (some ⟨ui.Counter, some (flipBit ui.Cert.content i k)⟩) usigID w).1
        = .ret (none, some ("invalid UI: " ++ e))) ∧
    (∀ p : ParsedCert, ParseCert ui.Cert = .ret p →
      p1.signature = p.signature → p1.encryptedShares = p.encryptedShares →
      p1.encryptedSecretH = p.encryptedSecretH →
      (u.VerifyUI message (some ⟨ui.Counter, some (flipBit ui.Cert.content i k)⟩) usigID w).1
        = .ret (bb, none)) := by
  have h1 := VerifyUI_of_ParseCert u message
    ⟨ui.Counter, some (flipBit ui.Cert.content i k)⟩ usigID w p1 hdec
  constructor
  · intro e he
    rw [h1]
    rcases hv : (u.USIGEnclave.VerifyUI (messageDigest message) p1.signature
      p1.encryptedShares p1.encryptedSecretH w.enclave).1 with ⟨shares, secretHash, err⟩
    rw [hv] at he
    simp only at he
    subst he
    rfl
  · intro p hp hs hes hesh
    have h0 := VerifyUI_of_ParseCert u message ui usigID w p hp
    rw [h1, hs, hes, hesh, ← h0, hok]

/-- C6 (witness). On the UI of the counter enclave for `order#42`: a flip in the
epoch byte is not detected, a flip in the signature gives an `invalid UI`
error. -/
theorem C6_VerifyUI_flipped_cert_witness :
    (counterUSIG.VerifyUI order42 (some ⟨1, some (flipBit cert42 4 0)⟩) (some [1]) world0).1
        = .ret (some verified42, none) ∧
      (counterUSIG.VerifyUI order42 (some ⟨1, some (flipBit cert42 7 0)⟩) (some [1]) world0).1
        = .ret (none, some "invalid UI: signature mismatch") :=
  ⟨(C6_VerifyUI_flipped_cert counterUSIG order42 ⟨1, some cert42⟩ (some [1]) world0 4 0
      (some verified42)
      ⟨2, some (messageDigest order42).val, some [16, 17], some [32], none⟩
      (by decide) (by decide)).2
      ⟨3, some (messageDigest order42).val, some [16, 17], some [32], none⟩
      (by decide) rfl rfl rfl,
   (C6_VerifyUI_flipped_cert counterUSIG order42 ⟨1, some cert42⟩ (some [1]) world0 7 0
      (some verified42)
      ⟨3, some ((messageDigest order42).val.set 0 180), some [16, 17], some [32], none⟩
      (by decide) (by decide)).1 "signature mismatch" (by decide)⟩

/-- C7 (counterexample). The declining enclave certifies without error, its
verify operation accepts everything, and `ID` returns an identity; `CreateUI`
returns a UI with a nil certificate and `VerifyUI` of that UI panics. -/
theorem C7_soundness_fails_for_declining_enclave :
    (∀ (d : Digest) (sig es esh : Bytes) (s : Nat),
      (decliningEnclave.VerifyUI d sig es esh s).1.2.2 = none) ∧
    decliningUSIG.CreateUI order42 world0 =
      (.ret (some ⟨1, none⟩, none), ⟨1, [Event.certify (messageDigest order42)]⟩) ∧
    decliningUSIG.ID rawPKIX = .ret (some [0, 0, 0, 0, 0, 0, 0, 3, 1, 2, 3]) ∧
    (decliningUSIG.VerifyUI order42 (some ⟨1, none⟩) (some [0, 0, 0, 0, 0, 0, 0, 3, 1, 2, 3])
        ⟨1, [Event.certify (messageDigest order42)]⟩).1 =
      .panic "asn1: syntax error: sequence truncated" := by
  refine ⟨fun _ _ _ _ _ => rfl, by decide, by decide, by decide⟩

/-- C7 (amended). Verification soundness: for every message and every enclave
whose certify operation returns, without error, non-nil signature,
encryptedShares and encryptedSecretH whose encoded fields together take fewer
than `2 ^ 31` bytes, and whose verify operation then accepts them for the same
digest, `VerifyUI` of the message, of the UI that `CreateUI` returned and of the
identity `ID` returns succeeds with the packaged shares and secret hash that
the verify operation returned. -/
theorem C7_VerifyUI_CreateUI {σ κ : Type} (pkix : x509.PKIX κ) (u : USIG σ κ) (message : Bytes)
    (w : World σ) (counter : Nat) (signature encryptedShares encryptedSecretH : List Byte)
    (s1 s2 : σ) (shares : Bytes) (secretHash : Digest) (id : Bytes)
    (hepoch : u.USIGEnclave.epoch < 2 ^ 64)
    (hcertify : u.USIGEnclave.CreateUI (messageDigest message) w.enclave =
      (⟨counter, some signature, some encryptedShares, some encryptedSecretH, none⟩, s1))
    (hsize : (certmaker.body ⟨(strconv.Atoi (strconv.FormatUint u.USIGEnclave.epoch)).1,
      some signature, some encryptedShares, some encryptedSecretH⟩).length < 2 ^ 31)
    (hverify : u.USIGEnclave.VerifyUI (messageDigest message) (some signature)
      (some encryptedShares) (some encryptedSecretH) s1 = ((shares, secretHash, none), s2))
    (_hid : u.ID pkix = .ret id) :
    ∃ (ui : usig.UI) (bb : Bytes),
      (u.CreateUI message w).1 = .ret (some ui, none) ∧ ui.Counter = counter ∧
      SharesSecretHashToBytes shares secretHash = .ret (bb, none) ∧
      (u.VerifyUI message (some ui) id (u.CreateUI message w).2).1 = .ret (bb, none) := by
  have hmk := MakeCert_some u.USIGEnclave.epoch signature encryptedShares encryptedSecretH
  have hparse := ParseCert_MakeCert_append u.USIGEnclave.epoch signature encryptedShares
    encryptedSecretH [] hepoch hsize
  rw [List.append_nil] at hparse
  have hcreate : u.CreateUI message w =
      (.ret (some ⟨counter, some (asn1.marshalSequence (certmaker.body
        ⟨(strconv.Atoi (strconv.FormatUint u.USIGEnclave.epoch)).1, some signature,
          some encryptedShares, some encryptedSecretH⟩))⟩, none),
        ⟨s1, w.trace ++ [Event.certify (messageDigest message)]⟩) := by
    simp only [USIG.CreateUI, hcertify, hmk]
    simp
  have hv := VerifyUI_of_ParseCert u message
    ⟨counter, some (asn1.marshalSequence (certmaker.body
      ⟨(strconv.Atoi (strconv.FormatUint u.USIGEnclave.epoch)).1, some signature,
        some encryptedShares, some encryptedSecretH⟩))⟩ id
    ⟨s1, w.trace ++ [Event.certify (messageDigest message)]⟩ _ hparse
  simp only [hverify, SharesSecretHashToBytes_returns] at hv
  refine ⟨_, _, by rw [hcreate], rfl, SharesSecretHashToBytes_returns shares secretHash, ?_⟩
  rw [hcreate]
  exact hv

/-- C7 (witness). The counter enclave on the message `order#42`. -/
theorem C7_VerifyUI_CreateUI_witness :
    ∃ (ui : usig.UI) (bb : Bytes),
      (counterUSIG.CreateUI order42 world0).1 = .ret (some ui, none) ∧ ui.Counter = 1 ∧
      SharesSecretHashToBytes (some [119]) (messageDigest order42) = .ret (bb, none) ∧
      (counterUSIG.VerifyUI order42 (some ui) (some [0, 0, 0, 0, 0, 0, 0, 3, 1, 2, 3])
        (counterUSIG.CreateUI order42 world0).2).1 = .ret (bb, none) :=
  C7_VerifyUI_CreateUI rawPKIX counterUSIG order42 world0 1 (messageDigest order42).val
    [16, 17] [32] 1 1 (some [119]) (messageDigest order42)
    (some [0, 0, 0, 0, 0, 0, 0, 3, 1, 2, 3]) (by decide) (by decide) (by decide) (by decide)
    (by decide)

/-- C8. Identity round trip: for every `uint64` epoch and every public key
that the key serializer accepts and whose serialized form parses back to the
same key, `MakeID` returns an identity without error and `ParseID` of it
returns, without error, exactly the epoch and the key. -/
theorem C8_ParseID_MakeID {κ : Type} (pkix : x509.PKIX κ) (epoch : Nat) (publicKey : κ)
    (publicKeyBytes : Bytes) (hepoch : epoch < 2 ^ 64)
    (hmarshal : pkix.MarshalPKIXPublicKey publicKey = (publicKeyBytes, none))
    (hparse : pkix.ParsePKIXPublicKey publicKeyBytes.content = (some publicKey, none)) :
    ∃ id : List Byte, MakeID pkix epoch publicKey = (some id, none) ∧
      ParseID pkix (some id) = (epoch, some publicKey, none) := by
  refine ⟨binary.WriteUint64 epoch ++ publicKeyBytes.content, ?_, ?_⟩
  · simp only [MakeID, hmarshal]
  · simp only [ParseID, Bytes.content, Option.getD_some] at hparse ⊢
    rw [binary.ReadUint64_WriteUint64 epoch _ hepoch]
    simp only [hparse]

/-- C8 (witness). Epoch `2 ^ 64 - 1` and the key `[1, 2, 3]` in the raw key
format. -/
theorem C8_ParseID_MakeID_witness :
    ∃ id : List Byte, MakeID rawPKIX (2 ^ 64 - 1) [1, 2, 3] = (some id, none) ∧
      ParseID rawPKIX (some id) = (2 ^ 64 - 1, some [1, 2, 3], none) :=
  C8_ParseID_MakeID rawPKIX (2 ^ 64 - 1) [1, 2, 3] (some [1, 2, 3]) (by decide) (by decide)
    (by decide)

/-- C9. `MakeCert` with a nil signature, encryptedShares or encryptedSecretH
returns the nil certificate; with none of them nil it returns a non-nil,
non-empty byte string; it does not panic. -/
theorem C9_MakeCert_nil_or_nonempty (epoch : Nat)
    (signature encryptedShares encryptedSecretH : Bytes) :
    ((signature = none ∨ encryptedShares = none ∨ encryptedSecretH = none) →
      MakeCert epoch signature encryptedShares encryptedSecretH = .ret none) ∧
    ((signature ≠ none ∧ encryptedShares ≠ none ∧ encryptedSecretH ≠ none) →
      ∃ cert : List Byte,
        MakeCert epoch signature encryptedShares encryptedSecretH = .ret (some cert) ∧
        cert ≠ []) := by
  constructor
  · exact MakeCert_nil epoch signature encryptedShares encryptedSecretH
  · rintro ⟨h1, h2, h3⟩
    obtain ⟨s, rfl⟩ := Option.ne_none_iff_exists'.mp h1
    obtain ⟨es, rfl⟩ := Option.ne_none_iff_exists'.mp h2
    obtain ⟨esh, rfl⟩ := Option.ne_none_iff_exists'.mp h3
    exact ⟨_, MakeCert_some epoch s es esh, marshalSequence_ne_nil _⟩

/-- C10. `CreateUI` calls the certify operation of the enclave once, on the
SHA-256 digest of the message, and nothing else in the enclave; if that call
returns an error, `CreateUI` returns that error and no UI; otherwise it
returns, with a nil error, the UI made of the counter of the enclave and of
`MakeCert` of the epoch and the three byte strings the enclave returned. -/
theorem C10_CreateUI_single_pass {σ κ : Type} (u : USIG σ κ) (message : Bytes) (w : World σ) :
    (u.CreateUI message w).2 =
        ⟨(u.USIGEnclave.CreateUI (sha256.Sum256 message.content) w.enclave).2,
          w.trace ++ [Event.certify (sha256.Sum256 message.content)]⟩ ∧
      ((u.USIGEnclave.CreateUI (sha256.Sum256 message.content) w.enclave).1.err ≠ none →
        (u.CreateUI message w).1 =
          .ret (none, (u.USIGEnclave.CreateUI (sha256.Sum256 message.content) w.enclave).1.err)) ∧
      ((u.USIGEnclave.CreateUI (sha256.Sum256 message.content) w.enclave).1.err = none →
        ∃ cert : Bytes,
          MakeCert u.USIGEnclave.epoch
            (u.USIGEnclave.CreateUI (sha256.Sum256 message.content) w.enclave).1.signature
            (u.USIGEnclave.CreateUI (sha256.Sum256 message.content) w.enclave).1.encryptedShares
            (u.USIGEnclave.CreateUI (sha256.Sum256 message.content) w.enclave).1.encryptedSecretH
              = .ret cert ∧
          (u.CreateUI message w).1 =
            .ret (some ⟨(u.USIGEnclave.CreateUI (sha256.Sum256 message.content) w.enclave).1.counter,
              cert⟩, none)) := by
  rcases hc : u.USIGEnclave.CreateUI (sha256.Sum256 message.content) w.enclave with
    ⟨⟨counter, sig, es, esh, err⟩, s⟩
  obtain ⟨cert, hcert⟩ := MakeCert_returns u.USIGEnclave.epoch sig es esh
  refine ⟨?_, ?_, ?_⟩
  · simp only [USIG.CreateUI, messageDigest, hc]
    split <;> [rfl; (split <;> rfl)]
  · intro herr
    simp only [USIG.CreateUI, messageDigest, hc]
    simp only [ne_eq] at herr
    simp [herr]
  · intro herr
    simp only at herr
    subst herr
    refine ⟨cert, hcert, ?_⟩
    simp only [USIG.CreateUI, messageDigest, hc, hcert]
    simp

/-- C11. Monotonicity: when the certify operation of the enclave issues
strictly increasing counters (each counter is above the counter `ctr` of the
state before the call and not above that of the state after it), the UIs that
successful calls of `CreateUI`, made one after another on any messages, return
have strictly increasing counters, none repeated. -/
theorem C11_CreateUI_counters_increase {σ κ : Type} (u : USIG σ κ) (ctr : σ → Nat)
    (messages : List Bytes) (w : World σ) (uis : List usig.UI)
    (hmono : ∀ (d : Digest) (s : σ), (u.USIGEnclave.CreateUI d s).1.err = none →
      ctr s < (u.USIGEnclave.CreateUI d s).1.counter ∧
      (u.USIGEnclave.CreateUI d s).1.counter ≤ ctr (u.USIGEnclave.CreateUI d s).2)
    (hsucc : (u.CreateUIs messages w).1 = uis.map created) :
    (uis.map (fun ui => ui.Counter)).Pairwise (fun a b => a < b) ∧
      (uis.map (fun ui => ui.Counter)).Nodup := by
  have h := (CreateUIs_counters u ctr hmono messages w uis hsucc).2
  exact ⟨h, h.imp (fun hab => Nat.ne_of_lt hab)⟩

/-- C11 (witness). Three calls on the counter enclave return the counters 1, 2
and 3. -/
theorem C11_CreateUI_counters_increase_witness :
    (counterUSIG.CreateUIs [order42, order43, order42] world0).1 =
        [created ⟨1, some cert42⟩,
         created ⟨2, some ([48, 44, 2, 1, 3, 4, 32] ++ (messageDigest order43).val
            ++ [4, 2, 16, 17, 4, 1, 32])⟩,
         created ⟨3, some cert42⟩] ∧
      (([1, 2, 3] : List Nat).Pairwise (fun a b => a < b) ∧ ([1, 2, 3] : List Nat).Nodup) :=
  ⟨by decide,
   C11_CreateUI_counters_increase counterUSIG (fun s => s) [order42, order43, order42] world0
    [⟨1, some cert42⟩,
     ⟨2, some ([48, 44, 2, 1, 3, 4, 32] ++ (messageDigest order43).val
        ++ [4, 2, 16, 17, 4, 1, 32])⟩,
     ⟨3, some cert42⟩]
    (fun _ s _ => ⟨Nat.lt_succ_self s, Nat.le_refl _⟩) (by decide)⟩

/-- C12. Identities with different epochs are distinct: for `uint64` epochs and
keys that serialize, equal identities have equal epochs and equal serialized
keys, so identities of different epochs differ, also for one and the same key. -/
theorem C12_MakeID_injective {κ : Type} (pkix : x509.PKIX κ) (e1 e2 : Nat) (k1 k2 : κ)
    (b1 b2 : Bytes) (he1 : e1 < 2 ^ 64) (he2 : e2 < 2 ^ 64)
    (hk1 : pkix.MarshalPKIXPublicKey k1 = (b1, none))
    (hk2 : pkix.MarshalPKIXPublicKey k2 = (b2, none)) :
    (MakeID pkix e1 k1 = MakeID pkix e2 k2 → e1 = e2 ∧ b1.content = b2.content) ∧
      (e1 ≠ e2 → MakeID pkix e1 k1 ≠ MakeID pkix e2 k2) := by
  have key : MakeID pkix e1 k1 = MakeID pkix e2 k2 → e1 = e2 ∧ b1.content = b2.content := by
    intro h
    simp only [MakeID, hk1, hk2, Prod.mk.injEq, Option.some.injEq, and_true] at h
    have hl : (binary.WriteUint64 e1).length = (binary.WriteUint64 e2).length := by
      rw [binary.WriteUint64, binary.WriteUint64, asn1.appendLength_length,
        asn1.appendLength_length]
    obtain ⟨hw, hb⟩ := List.append_inj h hl
    have hv := congrArg binary.Uint64 hw
    rw [binary.Uint64_WriteUint64 e1 he1, binary.Uint64_WriteUint64 e2 he2] at hv
    exact ⟨hv, hb⟩
  exact ⟨key, fun hne h => hne (key h).1⟩

/-- C12 (witness). Epochs 3 and 4 with the same key `[1, 2, 3]`. -/
theorem C12_MakeID_injective_witness :
    MakeID rawPKIX 3 [1, 2, 3] ≠ MakeID rawPKIX 4 [1, 2, 3] :=
  (C12_MakeID_injective rawPKIX 3 4 [1, 2, 3] [1, 2, 3] (some [1, 2, 3]) (some [1, 2, 3])
    (by decide) (by decide) (by decide) (by decide)).2 (by decide)

/-- C13. Identity wire layout: when the key serializes to the bytes `P`,
`MakeID` returns, with a nil error, the 8 bytes of the epoch from the most to
the least significant followed by `P`, `8 + |P|` bytes in all; when the key
does not serialize, `MakeID` returns no bytes and an error. -/
theorem C13_MakeID_layout {κ : Type} (pkix : x509.PKIX κ) (epoch : Nat) (publicKey : κ) :
    (∀ P : Bytes, pkix.MarshalPKIXPublicKey publicKey = (P, none) →
      MakeID pkix epoch publicKey =
        (some ([byte (epoch / 2 ^ 56), byte (epoch / 2 ^ 48), byte (epoch / 2 ^ 40),
          byte (epoch / 2 ^ 32), byte (epoch / 2 ^ 24), byte (epoch / 2 ^ 16),
          byte (epoch / 2 ^ 8), byte epoch] ++ P.content), none) ∧
      ([byte (epoch / 2 ^ 56), byte (epoch / 2 ^ 48), byte (epoch / 2 ^ 40),
          byte (epoch / 2 ^ 32), byte (epoch / 2 ^ 24), byte (epoch / 2 ^ 16),
          byte (epoch / 2 ^ 8), byte epoch] ++ P.content).length = 8 + P.content.length) ∧
    (∀ (b : Bytes) (err : String), pkix.MarshalPKIXPublicKey publicKey = (b, some err) →
      MakeID pkix epoch publicKey =
        (none, some ("failed to serialize public key: " ++ err))) := by
  constructor
  · intro P hP
    constructor
    · simp only [MakeID, hP, binary.WriteUint64, asn1.appendLength]
      simp
    · simp only [List.length_append, List.length_cons, List.length_nil]
  · intro b err hb
    simp only [MakeID, hb]

/-- C14. `ParseID` returns an error, with epoch 0 and no key, when the input
has fewer than 8 bytes and when the bytes after the first 8 do not parse as a
public key; otherwise it returns the big-endian value of the first 8 bytes,
the parsed key and a nil error. -/
theorem C14_ParseID_cases {κ : Type} (pkix : x509.PKIX κ) (usigID : Bytes) :
    (usigID.content.length < 8 →
      ∃ err : String,
        ParseID pkix usigID = (0, none, some ("failed to extract epoch from USIG ID: " ++ err))) ∧
    (∀ (b0 b1 b2 b3 b4 b5 b6 b7 : Byte) (rest : List Byte),
      usigID.content = b0 :: b1 :: b2 :: b3 :: b4 :: b5 :: b6 :: b7 :: rest →
      (∀ (k : Option κ) (err : String), pkix.ParsePKIXPublicKey rest = (k, some err) →
        ParseID pkix usigID = (0, none, some ("failed to parse public key: " ++ err))) ∧
      (∀ k : Option κ, pkix.ParsePKIXPublicKey rest = (k, none) →
        ParseID pkix usigID =
          (b0.val * 2 ^ 56 + b1.val * 2 ^ 48 + b2.val * 2 ^ 40 + b3.val * 2 ^ 32
            + b4.val * 2 ^ 24 + b5.val * 2 ^ 16 + b6.val * 2 ^ 8 + b7.val, k, none))) := by
  constructor
  · intro hlen
    by_cases h0 : usigID.content.length = 0
    · exact ⟨"EOF", by simp [ParseID, binary.ReadUint64, h0]⟩
    · exact ⟨"unexpected EOF", by simp [ParseID, binary.ReadUint64, h0, hlen]⟩
  · intro b0 b1 b2 b3 b4 b5 b6 b7 rest hc
    have hread : binary.ReadUint64 usigID.content =
        (b0.val * 2 ^ 56 + b1.val * 2 ^ 48 + b2.val * 2 ^ 40 + b3.val * 2 ^ 32
          + b4.val * 2 ^ 24 + b5.val * 2 ^ 16 + b6.val * 2 ^ 8 + b7.val, rest, none) := by
      rw [hc]
      simp only [binary.ReadUint64, binary.Uint64, List.length_cons, List.take, List.drop,
        List.foldl]
      rw [if_neg (by omega), if_neg (by omega)]
      simp only [Prod.mk.injEq, and_true]
      omega
    constructor
    · intro k err hk
      simp only [ParseID, hread, hk]
    · intro k hk
      simp only [ParseID, hread, hk]

/-- C15. Cryptographic failure is reported as an invalid UI error: when the
certificate decodes and the verify operation of the enclave fails, `VerifyUI`
returns no bytes and the error `invalid UI: ` followed by the error of the
enclave.  This differs from what a certificate that does not decode gives: for
such a certificate the result of `VerifyUI` is not this one, and the text
`failed to parse UI cert: ...` is not the text of an invalid UI error. -/
theorem C15_VerifyUI_invalid_UI {σ κ : Type} (u : USIG σ κ) (message : Bytes) (ui : usig.UI)
    (usigID : Bytes) (w : World σ) (p : ParsedCert) (e : String) (shares : Bytes)
    (secretHash : Digest) (s : σ)
    (hdec : ParseCert ui.Cert = .ret p)
    (hfail : u.USIGEnclave.VerifyUI (messageDigest message) p.signature p.encryptedShares
      p.encryptedSecretH w.enclave = ((shares, secretHash, some e), s)) :
    (u.VerifyUI message (some ui) usigID w).1 = .ret (none, some ("invalid UI: " ++ e)) ∧
    (∀ (message2 : Bytes) (ui2 : usig.UI) (usigID2 : Bytes) (w2 : World σ),
      (∀ p2 : ParsedCert, ParseCert ui2.Cert ≠ .ret p2) →
      (u.VerifyUI message2 (some ui2) usigID2 w2).1 ≠ .ret (none, some ("invalid UI: " ++ e))) ∧
    (∀ e2 : String, "failed to parse UI cert: " ++ e2 ≠ "invalid UI: " ++ e) := by
  refine ⟨?_, ?_, fun e2 => parse_error_ne_invalid_UI e2 e⟩
  · rw [VerifyUI_of_ParseCert u message ui usigID w p hdec, hfail]
  · intro message2 ui2 usigID2 w2 hnot heq
    rcases hp : ParseCert ui2.Cert with p2 | msg
    · exact hnot p2 hp
    · simp [USIG.VerifyUI, hp] at heq

/-- C15 (witness). On the counter enclave, the certificate of `order#42`
presented with the message `order#43` is rejected as an invalid UI. -/
theorem C15_VerifyUI_invalid_UI_witness :
    (counterUSIG.VerifyUI order43 (some ⟨1, some cert42⟩) (some [1]) world0).1 =
      .ret (none, some "invalid UI: signature mismatch") :=
  (C15_VerifyUI_invalid_UI counterUSIG order43 ⟨1, some cert42⟩ (some [1]) world0
    ⟨3, some (messageDigest order42).val, some [16, 17], some [32], none⟩
    "signature mismatch" none (messageDigest order43) 0 (by decide) (by decide)).1

/-- C16. The verification result is a lossless carrier:
`SharesSecretHashToBytes` returns a byte string and a nil error for all shares
and every 32-byte secret hash; when the certificate decodes and the verify
operation of the enclave succeeds, `VerifyUI` returns exactly what
`SharesSecretHashToBytes` returns for the shares and the secret hash of the
enclave; and equal outputs of `SharesSecretHashToBytes` come from shares with
the same bytes and from the same secret hash. -/
theorem C16_lossless_carrier {σ κ : Type} (u : USIG σ κ) (message : Bytes) (ui : usig.UI)
    (usigID : Bytes) (w : World σ) (p : ParsedCert) (shares : Bytes) (secretHash : Digest)
    (s : σ)
    (hdec : ParseCert ui.Cert = .ret p)
    (hok : u.USIGEnclave.VerifyUI (messageDigest message) p.signature p.encryptedShares
      p.encryptedSecretH w.enclave = ((shares, secretHash, none), s)) :
    (∀ (share : Bytes) (h : Digest),
      ∃ bb : List Byte, SharesSecretHashToBytes share h = .ret (some bb, none)) ∧
    (u.VerifyUI message (some ui) usigID w).1 = SharesSecretHashToBytes shares secretHash ∧
    (∀ (s1 s2 : Bytes) (h1 h2 : Digest),
      SharesSecretHashToBytes s1 h1 = SharesSecretHashToBytes s2 h2 →
      s1.content = s2.content ∧ h1 = h2) := by
  refine ⟨fun share h => ⟨_, SharesSecretHashToBytes_returns share h⟩, ?_,
    SharesSecretHashToBytes_injective⟩
  rw [VerifyUI_of_ParseCert u message ui usigID w p hdec, hok]

/-- C16 (witness). The counter enclave on the certificate of `order#42`. -/
theorem C16_lossless_carrier_witness :
    (counterUSIG.VerifyUI order42 (some ⟨1, some cert42⟩) (some [1]) world0).1 =
      SharesSecretHashToBytes (some [119]) (messageDigest order42) :=
  (C16_lossless_carrier counterUSIG order42 ⟨1, some cert42⟩ (some [1]) world0
    ⟨3, some (messageDigest order42).val, some [16, 17], some [32], none⟩
    (some [119]) (messageDigest order42) 0 (by decide) (by decide)).2.1

/-- C17 (counterexample). The certificate that `MakeCert` returns for epoch 0
and a signature of `2 ^ 31` zero bytes is not read back: `ParseCert` panics. -/
theorem C17_roundtrip_fails_for_large_signature :
    ∃ cert : List Byte,
      MakeCert 0 (some (List.replicate (2 ^ 31) 0)) (some []) (some []) = .ret (some cert) ∧
      ParseCert (some cert) = .panic "asn1: structure error: length too large" :=
  ParseCert_MakeCert_of_large_signature (List.replicate (2 ^ 31) 0) (List.length_replicate _ _)

/-- C17 (amended). Certificate round trip below `2 ^ 63`: for every epoch below
`2 ^ 63` and all non-nil signature, encryptedShares and encryptedSecretH (empty
ones included) whose encoded fields together take fewer than `2 ^ 31` bytes,
`ParseCert` of the certificate that `MakeCert` returns gives, without error and
without panic, the same epoch and the same three byte strings; hence no other
such input gives the same certificate. -/
theorem C17_roundtrip_and_injective (epoch : Nat) (s es esh : List Byte)
    (hepoch : epoch < 2 ^ 63)
    (hsize : (certmaker.body ⟨(epoch : Int), some s, some es, some esh⟩).length < 2 ^ 31) :
    ∃ cert : List Byte, MakeCert epoch (some s) (some es) (some esh) = .ret (some cert) ∧
      ParseCert (some cert) = .ret ⟨epoch, some s, some es, some esh, none⟩ ∧
      ∀ (epoch2 : Nat) (s2 es2 esh2 : List Byte), epoch2 < 2 ^ 63 →
        (certmaker.body ⟨(epoch2 : Int), some s2, some es2, some esh2⟩).length < 2 ^ 31 →
        MakeCert epoch2 (some s2) (some es2) (some esh2) = .ret (some cert) →
        epoch2 = epoch ∧ s2 = s ∧ es2 = es ∧ esh2 = esh := by
  obtain ⟨cert, hmk, hparse⟩ := ParseCert_MakeCert_roundtrip epoch s es esh hepoch hsize
  refine ⟨cert, hmk, hparse, ?_⟩
  intro epoch2 s2 es2 esh2 hepoch2 hsize2 hmk2
  obtain ⟨cert2, hmk2b, hparse2⟩ :=
    ParseCert_MakeCert_roundtrip epoch2 s2 es2 esh2 hepoch2 hsize2
  rw [hmk2] at hmk2b
  simp only [Outcome.ret.injEq, Option.some.injEq] at hmk2b
  subst hmk2b
  rw [hparse] at hparse2
  simp only [Outcome.ret.injEq, ParsedCert.mk.injEq, Option.some.injEq, and_true] at hparse2
  obtain ⟨h1, h2, h3, h4⟩ := hparse2
  exact ⟨h1.symm, h2.symm, h3.symm, h4.symm⟩

/-- C17 (witness). Epoch `2 ^ 63 - 1` with an empty signature. -/
theorem C17_roundtrip_and_injective_witness :
    ∃ cert : List Byte,
      MakeCert (2 ^ 63 - 1) (some []) (some [187]) (some [204]) = .ret (some cert) ∧
      ParseCert (some cert) = .ret ⟨2 ^ 63 - 1, some [], some [187], some [204], none⟩ ∧
      ∀ (epoch2 : Nat) (s2 es2 esh2 : List Byte), epoch2 < 2 ^ 63 →
        (certmaker.body ⟨(epoch2 : Int), some s2, some es2, some esh2⟩).length < 2 ^ 31 →
        MakeCert epoch2 (some s2) (some es2) (some esh2) = .ret (some cert) →
        epoch2 = 2 ^ 63 - 1 ∧ s2 = [] ∧ es2 = [187] ∧ esh2 = [204] :=
  C17_roundtrip_and_injective (2 ^ 63 - 1) [] [187] [204] (by decide) (by decide)

/-- C18. `VerifyUI` does not look at the claimed identity or at the epoch of the
certificate: two calls in the same world with the same message, with non-nil
identities and with certificates that decode to the same signature,
encryptedShares and encryptedSecretH return the same result and leave the same
world, whatever the identities, the epochs and the counters are. -/
theorem C18_VerifyUI_ignores_identity_and_epoch {σ κ : Type} (u : USIG σ κ) (message : Bytes)
    (ui1 ui2 : usig.UI) (usigID1 usigID2 : Bytes) (w : World σ) (p1 p2 : ParsedCert)
    (hid1 : usigID1 ≠ none) (hid2 : usigID2 ≠ none)
    (hdec1 : ParseCert ui1.Cert = .ret p1) (hdec2 : ParseCert ui2.Cert = .ret p2)
    (hs : p1.signature = p2.signature) (hes : p1.encryptedShares = p2.encryptedShares)
    (hesh : p1.encryptedSecretH = p2.encryptedSecretH) :
    u.VerifyUI message (some ui1) usigID1 w = u.VerifyUI message (some ui2) usigID2 w := by
  have hc1 := ParseCert_ret_ne_none ui1.Cert p1 hdec1
  have hc2 := ParseCert_ret_ne_none ui2.Cert p2 hdec2
  have he1 := ParseCert_err_none ui1.Cert p1 hdec1
  have he2 := ParseCert_err_none ui2.Cert p2 hdec2
  obtain ⟨ep1, sig1, es1, esh1, err1⟩ := p1
  obtain ⟨ep2, sig2, es2, esh2, err2⟩ := p2
  simp only at hs hes hesh he1 he2
  subst hs hes hesh he1 he2
  simp [USIG.VerifyUI, hdec1, hdec2, hid1, hid2, hc1, hc2]

/-- C18 (witness). On the counter enclave, the certificate of `order#42` with
identity `[1]` and the same certificate with epoch 2 and identity `[2]`. -/
theorem C18_VerifyUI_ignores_identity_and_epoch_witness :
    counterUSIG.VerifyUI order42 (some ⟨1, some cert42⟩) (some [1]) world0 =
      counterUSIG.VerifyUI order42 (some ⟨5, some (flipBit cert42 4 0)⟩) (some [2]) world0 :=
  C18_VerifyUI_ignores_identity_and_epoch counterUSIG order42 ⟨1, some cert42⟩
    ⟨5, some (flipBit cert42 4 0)⟩ (some [1]) (some [2]) world0
    ⟨3, some (messageDigest order42).val, some [16, 17], some [32], none⟩
    ⟨2, some (messageDigest order42).val, some [16, 17], some [32], none⟩
    (by decide) (by decide) (by decide) (by decide) rfl rfl rfl

/-- C19. When the certify operation of the enclave returns a nil error and a
nil signature, encryptedShares or encryptedSecretH, `CreateUI` returns a nil
error and a UI with the counter of the enclave and a nil certificate. -/
theorem C19_CreateUI_nil_cert {σ κ : Type} (u : USIG σ κ) (message : Bytes) (w : World σ)
    (herr : (u.USIGEnclave.CreateUI (messageDigest message) w.enclave).1.err = none)
    (hnil : (u.USIGEnclave.CreateUI (messageDigest message) w.enclave).1.signature = none ∨
      (u.USIGEnclave.CreateUI (messageDigest message) w.enclave).1.encryptedShares = none ∨
      (u.USIGEnclave.CreateUI (messageDigest message) w.enclave).1.encryptedSecretH = none) :
    (u.CreateUI message w).1 =
      .ret (some ⟨(u.USIGEnclave.CreateUI (messageDigest message) w.enclave).1.counter, none⟩,
        none) := by
  rcases hc : u.USIGEnclave.CreateUI (messageDigest message) w.enclave with
    ⟨⟨counter, sig, es, esh, err⟩, s⟩
  rw [hc] at herr hnil
  simp only at herr hnil
  subst herr
  simp only [USIG.CreateUI, hc, MakeCert_nil u.USIGEnclave.epoch sig es esh hnil]
  simp

/-- C19 (witness). The declining enclave on `order#42`. -/
theorem C19_CreateUI_nil_cert_witness :
    (decliningUSIG.CreateUI order42 world0).1 = .ret (some ⟨1, none⟩, none) :=
  C19_CreateUI_nil_cert decliningUSIG order42 world0 rfl (Or.inl rfl)

/-- C20. `ParseCert` ignores trailing bytes: when it returns for a certificate,
it returns the same epoch, signature, encryptedShares and encryptedSecretH, with
a nil error, for that certificate followed by any bytes. -/
theorem C20_ParseCert_ignores_trailing_bytes (c : Bytes) (t : List Byte) (p : ParsedCert)
    (h : ParseCert c = .ret p) : ParseCert (some (c.content ++ t)) = .ret p := by
  cases c with
  | none =>
    have hn : ParseCert none = .panic "asn1: syntax error: sequence truncated" := by decide
    rw [hn] at h
    cases h
  | some l => exact ParseCert_suffix l t p h

/-- C20 (witness). The certificate `cert42` followed by three bytes. -/
theorem C20_ParseCert_ignores_trailing_bytes_witness :
    ParseCert (some (cert42 ++ [9, 9, 9])) =
      .ret ⟨3, some (messageDigest order42).val, some [16, 17], some [32], none⟩ :=
  C20_ParseCert_ignores_trailing_bytes (some cert42) [9, 9, 9] _ (by decide)

end sgx
